import Mathlib

/-!
BSC new-contract scanner: shallow embedding of `main.go`.

The development models the block-scan pipeline of `main.go`:
`processBlock`, `getContractAddress`, `isContractSuspicious`,
`checkOwnershipRenunciation`, `extractAddressFromResponse`, `getCode`,
`addHexPrefix` and the decoding step of `getCurrentBlockNumber`, with the Go
library functions they call (`strings.Contains`, `strconv.FormatInt`,
`strconv.ParseInt`).

* A Go `string` is a sequence of bytes; it is modelled as a list with one
  element per byte, so `len(s)` is `List.length` and `s[a:b]` is a slice of
  the list. Every string literal of the source that the model uses is ASCII.
* The RPC client is modelled as a record of pure functions from the request
  parameters to the decoded reply or an error (a fixed chain state).
* Console output and RPC requests are recorded in a trace of events, in
  program order.
-/

set_option autoImplicit false

namespace BscScan

/-- A Go string: one list element per byte. -/
abbrev GoString := List Char

deriving instance DecidableEq for Except

/-- A decoded JSON value, as Go stores it in an `interface{}`. A number keeps
its literal text: no function of the program inspects one. -/
inductive JSON where
  | null : JSON
  | bool (b : Bool) : JSON
  | num (raw : GoString) : JSON
  | str (s : GoString) : JSON
  | arr (items : List JSON) : JSON
  | obj (fields : List (GoString × JSON)) : JSON

/-- A Go `map[string]interface{}` as a key/value list. -/
abbrev JMap := List (GoString × JSON)

/-- Map indexing `m[key]`: `none` is the nil interface of an absent key. -/
def mapGet (key : GoString) : JMap → Option JSON
  | [] => none
  | (k, v) :: rest => if k = key then some v else mapGet key rest

/-- The RPC endpoint behind `*rpc.Client`: each remote method used by the
program maps its parameters to the decoded reply or to an error message. -/
structure Client where
  /-- Method `eth_getBlockByNumber(height, fullTransactions)`. -/
  ethGetBlockByNumber : GoString → Bool → Except GoString JMap
  /-- Method `eth_getTransactionReceipt(hash)`. -/
  ethGetTransactionReceipt : GoString → Except GoString JMap
  /-- Method `eth_getCode(address, tag)`. -/
  ethGetCode : GoString → GoString → Except GoString GoString
  /-- Method `eth_call` with message fields `to`, `data`, and the block tag. -/
  ethCall : GoString → GoString → GoString → Except GoString GoString

/-- The process-wide flags of `main.go` (set once by `init`). -/
structure Config where
  complexityThreshold : Int
  sleepDuration : Int
  performAnalysis : Bool
  checkOwnershipRenunc : Bool

/-- Observable actions of `processBlock`: RPC requests and console lines. -/
inductive Event where
  /-- Request `eth_getBlockByNumber` with the given height (line 76). -/
  | rpcGetBlock (height : GoString) : Event
  /-- Request `eth_getTransactionReceipt` with the given hash (line 212). -/
  | rpcGetReceipt (hash : GoString) : Event
  /-- Request `eth_call` with `to` and `data` (line 244). -/
  | rpcEthCall (target data : GoString) : Event
  /-- Request `eth_getCode` with the given address (line 128). -/
  | rpcGetCode (address : GoString) : Event
  /-- Line 87: "Error getting contract address: err". -/
  | printReceiptError (err : GoString) : Event
  /-- Line 202: "Motif suspect trouvé : pattern". -/
  | printMotif (pattern : GoString) : Event
  /-- Line 95: "Suspicious contract found at address: a". -/
  | printSuspicious (address : GoString) : Event
  /-- Line 102: "Ownership renounced for contract at address: a". -/
  | printRenounced (address : GoString) : Event
  /-- Line 106: "/!\ Ownership had not renounced for contract at address: a". -/
  | printNotChecked (address : GoString) : Event
  /-- Line 112: "Error getting code: err". -/
  | printCodeError (err : GoString) : Event
  /-- Line 117: the explorer line "https://bscscan.com/address/a". -/
  | printExplorer (address : GoString) : Event
  /-- Line 118: the empty line after an explorer line. -/
  | printBlank : Event
  deriving DecidableEq

/-- How a call of `processBlock` ends: it returns `nil` or an error, or a
failed type assertion panics. -/
inductive Exit where
  | returned (err : Option GoString) : Exit
  | panicked : Exit
  deriving DecidableEq

/-- A finished run: the events in program order and the way it ended. -/
structure Run where
  trace : List Event
  exit : Exit

/-- The slice `s[lo:hi]`. Go panics when `hi > len(s)`; every use in the
program is guarded by a length test. -/
def slice (s : GoString) (lo hi : Nat) : GoString := (s.take hi).drop lo

/-- Library function `strings.Contains(s, substr)`: `substr` occurs in `s` as a
contiguous run of bytes. -/
def stringsContains : GoString → GoString → Bool
  | [], sub => sub.isEmpty
  | c :: cs, sub => sub.isPrefixOf (c :: cs) || stringsContains cs sub

/-- Library function `strconv.FormatInt(i, base)` for `2 ≤ base ≤ 16`:
lower-case digits, a leading minus sign for a negative number. -/
def formatInt (i : Int) (base : Nat) : GoString :=
  if i < 0 then '-' :: Nat.toDigits base i.natAbs else Nat.toDigits base i.toNat

/-- Lines 226-231. -/
def addHexPrefix (s : GoString) : GoString :=
  if s.length ≥ 2 ∧ slice s 0 2 = "0x".toList then s else "0x".toList ++ s

/-- Lines 137-198: the pattern table, in source order. -/
def suspiciousPatterns : List GoString :=
  [ "selfdestruct(", "delegatecall(", "call.value(", ".transfer(", "suicide(",
    "sha3(", "callcode(", "assembly \x7b", "block.timestamp", "blockhash(",
    "tx.origin", "gasleft(", "ecrecover(", "msg.sender.send(", "create2(",
    "keccak256(abi.encodePacked(", "addmod(", "mulmod(", "revert(", "assert(",
    "require(", "throw ", "msg.value", "block.number", "block.difficulty",
    "block.coinbase", "now", "gasprice", "this.balance", "tx.gasprice",
    ".call(", ".send(", "for \x7b", "while \x7b", "unchecked \x7b", "storage slot",
    "external contract", "inline assembly", "signed integer",
    "permanent storage write", "arbitrary jump", "high gas usage",
    "transaction origin", "floating pragma", "shadowing state variables",
    "hardcoded address", "magic numbers", "unprotected SELFDESTRUCT",
    "missing return value", "unchecked return value", "reentrancy",
    "unchecked math", "denial of service", "front running",
    "time manipulation", "block miner manipulation", "randomness source",
    "hardcoded gas amount", "gas limit" ].map String.toList

/-- Lines 200-207: the scan loop over the remaining patterns. The first
pattern contained in `code` is printed and ends the scan with `true`. -/
def scanPatterns (code : GoString) : List GoString → Bool × List Event
  | [] => (false, [])
  | pattern :: rest =>
    if stringsContains code pattern then (true, [Event.printMotif pattern])
    else scanPatterns code rest

/-- Lines 136-208: the result and the lines printed. -/
def isContractSuspicious (code : GoString) : Bool × List Event :=
  scanPatterns code suspiciousPatterns

/-- The all-zero owner address compared against at lines 252 and 257. -/
def zeroAddress : GoString := "0000000000000000000000000000000000000000".toList

/-- Line 234: the selector of `owner()`. -/
def ownerFunctionSelector : GoString := "0x8da5cb5b".toList

/-- Lines 265-271. -/
def extractAddressFromResponse (response : GoString) : GoString :=
  if response.length > 42 then slice response 2 42 else []

/-- Lines 249-261: the decision taken on the reply of the `owner()` call. -/
def ownerVerdict (response : GoString) : Except GoString Bool :=
  if response.length ≥ 66 then
    Except.ok (decide (slice response 26 66 = zeroAddress))
  else if response.length < 66 ∧ response.length > 2 then
    Except.ok (decide (extractAddressFromResponse response = zeroAddress))
  else
    Except.error "unexpected response format or empty owner address".toList

/-- Lines 233-262: the value returned. The function issues one `eth_call`
request, which the caller records as `Event.rpcEthCall`. -/
def checkOwnershipRenunciation (client : Client) (contractAddress : GoString) :
    Except GoString Bool :=
  match client.ethCall contractAddress ownerFunctionSelector "latest".toList with
  | Except.error err => Except.error ("error calling contract: ".toList ++ err)
  | Except.ok response => ownerVerdict response

/-- Lines 125-134: the value returned. The function issues one `eth_getCode`
request for `addHexPrefix contractAddress`. -/
def getCode (client : Client) (contractAddress : GoString) : Except GoString GoString :=
  client.ethGetCode (addHexPrefix contractAddress) "latest".toList

/-- Lines 210-222: the value returned. The function issues one
`eth_getTransactionReceipt` request for `addHexPrefix txHash`. -/
def getContractAddress (client : Client) (txHash : GoString) : Except GoString GoString :=
  match client.ethGetTransactionReceipt (addHexPrefix txHash) with
  | Except.error err => Except.error err
  | Except.ok receipt =>
    match mapGet "contractAddress".toList receipt with
    | some (JSON.str contractAddress) => Except.ok contractAddress
    | _ => Except.ok []

/-- Lines 110-119 of `processBlock`: the bytecode fetch and the size test. -/
def sizeCheck (cfg : Config) (client : Client) (contractAddress : GoString) : List Event :=
  Event.rpcGetCode (addHexPrefix contractAddress) ::
    match getCode client contractAddress with
    | Except.error err => [Event.printCodeError err]
    | Except.ok code =>
      if (code.length : Int) > cfg.complexityThreshold then
        [Event.printExplorer contractAddress, Event.printBlank]
      else []

/-- Lines 99-119 of `processBlock`: the ownership gate, then the size test. -/
def ownershipGate (cfg : Config) (client : Client) (contractAddress : GoString) :
    List Event :=
  if cfg.checkOwnershipRenunc then
    Event.rpcEthCall contractAddress ownerFunctionSelector ::
      match checkOwnershipRenunciation client contractAddress with
      | Except.error _ => [Event.printRenounced contractAddress]
      | Except.ok true => [Event.printRenounced contractAddress]
      | Except.ok false => sizeCheck cfg client contractAddress
  else [Event.printNotChecked contractAddress]

/-- Lines 94-119 of `processBlock`: what the loop body does with a non-empty
contract address. `isContractSuspicious` is called only when `performAnalysis`
is set (`&&` short-circuits). -/
def classify (cfg : Config) (client : Client) (contractAddress : GoString) : List Event :=
  let gate : Bool × List Event :=
    if cfg.performAnalysis then isContractSuspicious contractAddress else (false, [])
  if gate.1 then gate.2 ++ [Event.printSuspicious contractAddress]
  else gate.2 ++ ownershipGate cfg client contractAddress

/-- Lines 83-84 of `processBlock`: the two type assertions on a transaction
entry. `none` is a panic (the entry is not an object, or its `hash` is absent
or not a string). -/
def txHashOf : JSON → Option GoString
  | JSON.obj transaction =>
    match mapGet "hash".toList transaction with
    | some (JSON.str txHash) => some txHash
    | _ => none
  | _ => none

/-- Lines 85-119 of `processBlock`: the loop body after the type assertions. -/
def processHash (cfg : Config) (client : Client) (txHash : GoString) : List Event :=
  Event.rpcGetReceipt (addHexPrefix txHash) ::
    match getContractAddress client txHash with
    | Except.error err => [Event.printReceiptError err]
    | Except.ok contractAddress =>
      if contractAddress = [] then [] else classify cfg client contractAddress

/-- Lines 82-122 of `processBlock`: the loop over the transactions. -/
def processTransactions (cfg : Config) (client : Client) : List JSON → Run
  | [] => ⟨[], Exit.returned none⟩
  | tx :: rest =>
    match txHashOf tx with
    | none => ⟨[], Exit.panicked⟩
    | some txHash =>
      let r := processTransactions cfg client rest
      ⟨processHash cfg client txHash ++ r.trace, r.exit⟩

/-- Lines 73-123. -/
def processBlock (cfg : Config) (client : Client) (blockNumber : Int) : Run :=
  let hexBlockNumber := addHexPrefix (formatInt blockNumber 16)
  match client.ethGetBlockByNumber hexBlockNumber true with
  | Except.error err => ⟨[Event.rpcGetBlock hexBlockNumber], Exit.returned (some err)⟩
  | Except.ok result =>
    match mapGet "transactions".toList result with
    | some (JSON.arr transactions) =>
      let r := processTransactions cfg client transactions
      ⟨Event.rpcGetBlock hexBlockNumber :: r.trace, r.exit⟩
    | _ => ⟨[Event.rpcGetBlock hexBlockNumber], Exit.panicked⟩

/-- The addresses of the explorer lines of a trace, in order: the contracts
flagged. -/
def flagged (trace : List Event) : List GoString :=
  trace.filterMap fun e =>
    match e with
    | Event.printExplorer a => some a
    | _ => none

/-! ## Sample chain states -/

/-- A contract address: forty hexadecimal digits after `0x`. -/
def sampleAddress : GoString := "0xabc0000000000000000000000000000000000123".toList

/-- A transaction hash. -/
def sampleHash : GoString := "0x5e1d".toList

/-- A transaction entry of a block: an object whose `hash` is `sampleHash`. -/
def sampleTx : JSON := JSON.obj [("hash".toList, JSON.str sampleHash)]

/-- An `owner()` reply naming the zero address: `0x` and 64 zeros. -/
def renouncedReply : GoString := "0x".toList ++ List.replicate 64 '0'

/-- An `owner()` reply naming a non-zero owner. -/
def heldReply : GoString :=
  "0x".toList ++ List.replicate 24 '0' ++ "00000000000000000000000000000000000000a1".toList

/-- A chain whose every block holds the one transaction `sampleTx`, which created
`sampleAddress`; `reply` answers the `owner()` call and `code` the bytecode
fetch. -/
def sampleClient (reply : Except GoString GoString) (code : Except GoString GoString) :
    Client where
  ethGetBlockByNumber := fun _ _ =>
    Except.ok [("transactions".toList, JSON.arr [sampleTx])]
  ethGetTransactionReceipt := fun _ =>
    Except.ok [("contractAddress".toList, JSON.str sampleAddress)]
  ethGetCode := fun _ _ => code
  ethCall := fun _ _ _ => reply

/-- The default flags with the ownership check switched on. -/
def sampleConfig : Config := ⟨40000, 10, false, true⟩

/-- A chain whose contract has a non-zero owner and 50000 bytes of code. -/
def heldChain : Client :=
  sampleClient (Except.ok heldReply) (Except.ok (List.replicate 50000 '6'))

/-- A chain whose contract has renounced ownership and 50000 bytes of code. -/
def renouncedChain : Client :=
  sampleClient (Except.ok renouncedReply) (Except.ok (List.replicate 50000 '6'))

/-- An `owner()` reply of 42 bytes: `0x` and the forty-digit zero address. -/
def bareZeroReply : GoString := "0x".toList ++ List.replicate 40 '0'

/-- A chain whose block holds three transactions: the receipt of `0x01` has a
null `contractAddress`, the receipt request of `0x02` fails, and `sampleHash`
created `sampleAddress` (non-zero owner, six bytes of code). -/
def mixedChain : Client where
  ethGetBlockByNumber := fun _ _ =>
    Except.ok [("transactions".toList,
      JSON.arr [JSON.obj [("hash".toList, JSON.str "0x01".toList)],
        JSON.obj [("hash".toList, JSON.str "0x02".toList)], sampleTx])]
  ethGetTransactionReceipt := fun h =>
    if h = "0x01".toList then Except.ok [("contractAddress".toList, JSON.null)]
    else if h = "0x02".toList then Except.error "timeout".toList
    else Except.ok [("contractAddress".toList, JSON.str sampleAddress)]
  ethGetCode := fun _ _ => Except.ok "0x6080".toList
  ethCall := fun _ _ _ => Except.ok heldReply

/-- The pattern gate of line 94 lets the contract through: analysis is off or
`isContractSuspicious` returns `false`. -/
def gateOpen (cfg : Config) (a : GoString) : Prop :=
  cfg.performAnalysis = false ∨ (isContractSuspicious a).1 = false

/-- The loop of `processBlock` on block `n` reaches the transaction `tx` that
follows the entries `pre`, and resolves it to the non-empty contract address
`a`: the block request succeeds, its `transactions` are `pre ++ tx :: post`,
no entry of `pre` fails a type assertion, `tx` has the hash `txHash`, and
`getContractAddress` returns `a` for it. -/
def ResolvesAt (client : Client) (n : Int) (pre : List JSON) (tx : JSON) (post : List JSON)
    (txHash a : GoString) : Prop :=
  ∃ result, client.ethGetBlockByNumber (addHexPrefix (formatInt n 16)) true = Except.ok result ∧
    mapGet "transactions".toList result = some (JSON.arr (pre ++ tx :: post)) ∧
    (∀ t ∈ pre, txHashOf t ≠ none) ∧ txHashOf tx = some txHash ∧
    getContractAddress client txHash = Except.ok a ∧ a ≠ []

/-- The value of the variable `ownerAddress` of `checkOwnershipRenunciation`
(line 251 when the reply has 66 bytes or more, line 256 otherwise). -/
def extractedOwner (response : GoString) : GoString :=
  if response.length ≥ 66 then slice response 26 66
  else extractAddressFromResponse response

/-- The contract addresses that reach line 94 of `processBlock`, read off a
trace. Each pass through lines 94-108 leaves exactly one of three events that
name the address: the skip line of the pattern gate, the `owner()` request, or
the warning printed when the ownership check is off. -/
def classifiedAddrs (trace : List Event) : List GoString :=
  trace.filterMap fun e =>
    match e with
    | Event.printSuspicious a => some a
    | Event.rpcEthCall a _ => some a
    | Event.printNotChecked a => some a
    | _ => none

/-- Specification of the resolver, per transaction: the receipt of the
transaction (requested under its `0x`-prefixed hash) carries a non-empty
string `contractAddress`. A failed receipt request, a missing, null,
non-string or empty field yield nothing. -/
def receiptContract (client : Client) (tx : JSON) : Option GoString :=
  match txHashOf tx with
  | none => none
  | some txHash =>
    match client.ethGetTransactionReceipt (addHexPrefix txHash) with
    | Except.error _ => none
    | Except.ok receipt =>
      match mapGet "contractAddress".toList receipt with
      | some (JSON.str a) => if a = [] then none else some a
      | _ => none

/-- Specification of the resolver: the contract addresses of the transactions
of a block, in transaction order. -/
def resolveSpec (client : Client) (transactions : List JSON) : List GoString :=
  transactions.filterMap (receiptContract client)

/-- A chain whose block reply has no `transactions` field (a JSON `null` or
an empty object decodes to such a map). -/
def emptyBlockChain : Client :=
  ⟨fun _ _ => Except.ok [], heldChain.ethGetTransactionReceipt, heldChain.ethGetCode,
    heldChain.ethCall⟩

/-- The chain `client` with every block reply replaced by a block whose
`transactions` are `txs`; receipts, code and calls are unchanged. -/
def withTransactions (client : Client) (txs : List JSON) : Client :=
  ⟨fun _ _ => Except.ok [("transactions".toList, JSON.arr txs)],
    client.ethGetTransactionReceipt, client.ethGetCode, client.ethCall⟩

/-- A chain whose contract has a non-zero owner and a bytecode reply that
contains the first pattern of the table. -/
def patternCodeChain : Client :=
  sampleClient (Except.ok heldReply) (Except.ok "0x6080 selfdestruct(owner)".toList)

/-- The characters of hex-encoded chain values: `0`-`9`, `a`-`f`, `A`-`F` and
the `x` of the prefix. -/
def hexChar (ch : Char) : Bool :=
  ('0' ≤ ch && ch ≤ '9') || ('a' ≤ ch && ch ≤ 'f') || ('A' ≤ ch && ch ≤ 'F') || ch == 'x'

/-- The conditions under which lines 94-117 print the explorer line of the
contract address `a`: the ownership check is on, the pattern gate does not
skip, the probe returns `renounced = false` without error, and the bytecode
fetch succeeds with a length strictly above the threshold. -/
def FlagRule (cfg : Config) (client : Client) (a : GoString) : Prop :=
  cfg.checkOwnershipRenunc = true ∧
    ¬ (cfg.performAnalysis = true ∧ (isContractSuspicious a).1 = true) ∧
    checkOwnershipRenunciation client a = Except.ok false ∧
    ∃ code, getCode client a = Except.ok code ∧ cfg.complexityThreshold < (code.length : Int)

/-- The errors of `strconv.ParseInt` and `strconv.ParseUint`. -/
inductive NumError where
  | errSyntax : NumError
  | errRange : NumError
  | errBase : NumError
  | errBitSize : NumError
  deriving DecidableEq

/-- Library function `lower(c)` of `strconv`: the byte `c | ('x' - 'X')`. -/
def lowerByte (c : Char) : Nat := c.toNat ||| 0x20

/-- The digit value that the loop of `strconv.ParseUint` gives a byte: `0`-`9`
count 0-9 and letters count from 10, in either case; `none` is a syntax
error. -/
def digitValue (c : Char) : Option Nat :=
  if '0' ≤ c ∧ c ≤ '9' then some (c.toNat - '0'.toNat)
  else if 'a'.toNat ≤ lowerByte c ∧ lowerByte c ≤ 'z'.toNat then
    some (lowerByte c - 'a'.toNat + 10)
  else none

/-- The digit loop of `strconv.ParseUint` on 64-bit unsigned arithmetic: `n`
is the value so far and `underscores` records a skipped underscore. An error
carries the value returned with it. -/
def parseUintLoop (base : Nat) (base0 : Bool) (cutoff maxVal : Nat) :
    Nat → Bool → List Char → Except (Nat × NumError) (Nat × Bool)
  | n, underscores, [] => Except.ok (n, underscores)
  | n, underscores, c :: rest =>
    if c = '_' ∧ base0 = true then parseUintLoop base base0 cutoff maxVal n true rest
    else
      match digitValue c with
      | none => Except.error (0, NumError.errSyntax)
      | some d =>
        if d ≥ base then Except.error (0, NumError.errSyntax)
        else if n ≥ cutoff then Except.error (maxVal, NumError.errRange)
        else
          let n0 := (n * base) % 2 ^ 64
          let n1 := (n0 + d) % 2 ^ 64
          if n1 < n0 ∨ n1 > maxVal then Except.error (maxVal, NumError.errRange)
          else parseUintLoop base base0 cutoff maxVal n1 underscores rest

/-- The scan of `strconv.underscoreOK` over the number proper; `saw` is the
kind of the last byte: `^` start, `0` digit, `_` underscore, `!` other. -/
def underscoreOKLoop (hex : Bool) : Char → List Char → Bool
  | saw, [] => saw != '_'
  | saw, c :: rest =>
    if ('0' ≤ c ∧ c ≤ '9') ∨
        (hex = true ∧ 'a'.toNat ≤ lowerByte c ∧ lowerByte c ≤ 'f'.toNat) then
      underscoreOKLoop hex '0' rest
    else if c = '_' then
      if saw ≠ '0' then false else underscoreOKLoop hex '_' rest
    else if saw = '_' then false
    else underscoreOKLoop hex '!' rest

/-- Library function `strconv.underscoreOK`: underscores separate digits, after
an optional sign and an optional base prefix. -/
def underscoreOK (s : GoString) : Bool :=
  let s1 := if s.head? = some '-' ∨ s.head? = some '+' then s.drop 1 else s
  if s1.length ≥ 2 ∧ s1[0]? = some '0' ∧
      ((s1[1]?.map lowerByte) = some 'b'.toNat ∨ (s1[1]?.map lowerByte) = some 'o'.toNat ∨
        (s1[1]?.map lowerByte) = some 'x'.toNat) then
    underscoreOKLoop (decide ((s1[1]?.map lowerByte) = some 'x'.toNat)) '0' (s1.drop 2)
  else underscoreOKLoop false '^' s1

/-- Library function `strconv.ParseUint(s, base, bitSize)`: the value and the
error returned. -/
def parseUint (s : GoString) (base bitSize : Nat) : Nat × Option NumError :=
  if s = [] then (0, some NumError.errSyntax)
  else
    let picked : Option (Nat × GoString) :=
      if 2 ≤ base ∧ base ≤ 36 then some (base, s)
      else if base = 0 then
        if s[0]? = some '0' then
          if s.length ≥ 3 ∧ (s[1]?.map lowerByte) = some 'b'.toNat then some (2, s.drop 2)
          else if s.length ≥ 3 ∧ (s[1]?.map lowerByte) = some 'o'.toNat then some (8, s.drop 2)
          else if s.length ≥ 3 ∧ (s[1]?.map lowerByte) = some 'x'.toNat then some (16, s.drop 2)
          else some (8, s.drop 1)
        else some (10, s)
      else none
    match picked with
    | none => (0, some NumError.errBase)
    | some (b, digits) =>
      if bitSize > 64 then (0, some NumError.errBitSize)
      else
        let bits := if bitSize = 0 then 64 else bitSize
        let cutoff := (2 ^ 64 - 1) / b + 1
        let maxVal := 2 ^ bits - 1
        match parseUintLoop b (decide (base = 0)) cutoff maxVal 0 false digits with
        | Except.error (v, e) => (v, some e)
        | Except.ok (n, underscores) =>
          if underscores = true ∧ underscoreOK s = false then (0, some NumError.errSyntax)
          else (n, none)

/-- Library function `strconv.ParseInt(s, base, bitSize)`: the value and the
error returned. The conversion `int64(un)` and the negation do not overflow
past the range test, so the value is the signed number itself. -/
def parseInt (s : GoString) (base bitSize : Nat) : Int × Option NumError :=
  if s = [] then (0, some NumError.errSyntax)
  else
    let neg := decide (s.head? = some '-')
    let s1 := if s.head? = some '+' ∨ s.head? = some '-' then s.drop 1 else s
    match parseUint s1 base bitSize with
    | (un, err) =>
      if err ≠ none ∧ err ≠ some NumError.errRange then (0, err)
      else
        let bits := if bitSize = 0 then 64 else bitSize
        let cutoff := 2 ^ (bits - 1)
        if neg = false ∧ un ≥ cutoff then ((cutoff : Int) - 1, some NumError.errRange)
        else if neg = true ∧ un > cutoff then (-(cutoff : Int), some NumError.errRange)
        else (if neg = true then -(un : Int) else (un : Int), none)

/-- The error of `getCurrentBlockNumber`: that of the RPC call or that of
`strconv.ParseInt`. -/
inductive BlockNumberError where
  | rpc (err : GoString) : BlockNumberError
  | parse (err : NumError) : BlockNumberError
  deriving DecidableEq

/-- Lines 58-71, given the outcome of the `eth_blockNumber` call of line 60. -/
def getCurrentBlockNumber (reply : Except GoString GoString) : Except BlockNumberError Int :=
  match reply with
  | Except.error err => Except.error (BlockNumberError.rpc err)
  | Except.ok result =>
    match parseInt result 0 64 with
    | (_, some err) => Except.error (BlockNumberError.parse err)
    | (blockNumber, none) => Except.ok blockNumber

/-- The alphabet of `strconv.FormatInt` in base 16. -/
def lowerHexDigits : GoString := "0123456789abcdef".toList

/-! ## Traces -/

theorem flagged_append (xs ys : List Event) :
    flagged (xs ++ ys) = flagged xs ++ flagged ys := by
  simp [flagged, List.filterMap_append]

theorem mem_flagged {trace : List Event} {a : GoString} :
    a ∈ flagged trace ↔ Event.printExplorer a ∈ trace := by
  constructor
  · intro h
    obtain ⟨e, he, hea⟩ := List.mem_filterMap.1 h
    cases e <;> simp at hea
    subst hea
    exact he
  · intro h
    exact List.mem_filterMap.2 ⟨_, h, rfl⟩

theorem scanPatterns_events (code : GoString) (ps : List GoString) :
    ∀ e ∈ (scanPatterns code ps).2, ∃ p, e = Event.printMotif p := by
  induction ps with
  | nil => simp [scanPatterns]
  | cons p rest ih =>
    unfold scanPatterns
    split
    · intro e he
      exact ⟨p, by simpa using he⟩
    · exact ih

theorem scanPatterns_false (code : GoString) (ps : List GoString)
    (h : (scanPatterns code ps).1 = false) : (scanPatterns code ps).2 = [] := by
  induction ps with
  | nil => simp [scanPatterns]
  | cons p rest ih =>
    unfold scanPatterns at h ⊢
    split
    · rename_i hc
      simp [hc] at h
    · rename_i hc
      simp only [hc] at h
      exact ih h

theorem classify_gateOpen (cfg : Config) (c : Client) (a : GoString)
    (h : gateOpen cfg a) : classify cfg c a = ownershipGate cfg c a := by
  unfold classify
  rcases h with h | h
  · simp [h]
  · cases hp : cfg.performAnalysis
    · simp
    · have h2 : (isContractSuspicious a).2 = [] := scanPatterns_false _ _ h
      simp [h, h2]

theorem classify_gateShut (cfg : Config) (c : Client) (a : GoString)
    (h : ¬ gateOpen cfg a) :
    classify cfg c a = (isContractSuspicious a).2 ++ [Event.printSuspicious a] := by
  unfold gateOpen at h
  push_neg at h
  unfold classify
  simp [h.1]
  intro h2
  exact absurd h2 h.2

/-- What an explorer line in the events of one contract implies. -/
theorem explorer_mem_classify {cfg : Config} {c : Client} {a b : GoString}
    (h : Event.printExplorer b ∈ classify cfg c a) :
    b = a ∧ gateOpen cfg a ∧ cfg.checkOwnershipRenunc = true ∧
      checkOwnershipRenunciation c a = Except.ok false ∧
      ∃ code, getCode c a = Except.ok code ∧ cfg.complexityThreshold < (code.length : Int) := by
  by_cases hg : gateOpen cfg a
  · rw [classify_gateOpen cfg c a hg] at h
    unfold ownershipGate at h
    split at h
    · rename_i hco
      simp only [List.mem_cons, reduceCtorEq, false_or] at h
      split at h
      · simp at h
      · simp at h
      · rename_i hv
        unfold sizeCheck at h
        simp only [List.mem_cons, reduceCtorEq, false_or] at h
        split at h
        · simp at h
        · rename_i code hcode
          split at h
          · rename_i hlen
            simp at h
            exact ⟨h, hg, hco, hv, code, hcode, hlen⟩
          · simp at h
    · simp at h
  · rw [classify_gateShut cfg c a hg] at h
    simp only [List.mem_append, List.mem_singleton, reduceCtorEq, or_false] at h
    obtain ⟨p, hp⟩ := scanPatterns_events _ _ _ h
    cases hp

theorem mem_processTransactions {cfg : Config} {c : Client} {txs : List JSON} {e : Event}
    (h : e ∈ (processTransactions cfg c txs).trace) :
    ∃ tx ∈ txs, ∃ txHash, txHashOf tx = some txHash ∧ e ∈ processHash cfg c txHash := by
  induction txs with
  | nil => simp [processTransactions] at h
  | cons tx rest ih =>
    unfold processTransactions at h
    split at h
    · simp at h
    · rename_i txHash hh
      simp only [List.mem_append] at h
      rcases h with h | h
      · exact ⟨tx, by simp, txHash, hh, h⟩
      · obtain ⟨tx2, hm, r⟩ := ih h
        exact ⟨tx2, by simp [hm], r⟩

theorem explorer_mem_processHash {cfg : Config} {c : Client} {txHash b : GoString}
    (h : Event.printExplorer b ∈ processHash cfg c txHash) :
    getContractAddress c txHash = Except.ok b ∧ b ≠ [] ∧
      Event.printExplorer b ∈ classify cfg c b := by
  unfold processHash at h
  simp only [List.mem_cons, reduceCtorEq, false_or] at h
  split at h
  · simp at h
  · rename_i a ha
    split at h
    · simp at h
    · rename_i hne
      have hb := (explorer_mem_classify h).1
      subst hb
      exact ⟨ha, hne, h⟩

theorem mem_processBlock {cfg : Config} {c : Client} {n : Int} {e : Event}
    (h : e ∈ (processBlock cfg c n).trace) :
    e = Event.rpcGetBlock (addHexPrefix (formatInt n 16)) ∨
      ∃ result txs, c.ethGetBlockByNumber (addHexPrefix (formatInt n 16)) true = Except.ok result ∧
        mapGet "transactions".toList result = some (JSON.arr txs) ∧
        e ∈ (processTransactions cfg c txs).trace := by
  unfold processBlock at h
  simp only at h
  split at h
  · left; simpa using h
  · rename_i result hres
    split at h
    · rename_i txs htx
      simp only [List.mem_cons] at h
      rcases h with h | h
      · left; exact h
      · right; exact ⟨result, txs, hres, htx, h⟩
    · left; simpa using h

/-- An explorer line of `processBlock` comes from the events of the contract
it names. -/
theorem explorer_mem_processBlock {cfg : Config} {c : Client} {n : Int} {b : GoString}
    (h : Event.printExplorer b ∈ (processBlock cfg c n).trace) :
    Event.printExplorer b ∈ classify cfg c b := by
  rcases mem_processBlock h with h | ⟨_, txs, _, _, h⟩
  · cases h
  · obtain ⟨_, _, txHash, _, he⟩ := mem_processTransactions h
    exact (explorer_mem_processHash he).2.2

/-! ## The ownership probe -/

theorem ownerVerdict_of_length {response : GoString} (h : 2 < response.length) :
    ownerVerdict response = Except.ok (decide (extractedOwner response = zeroAddress)) := by
  unfold ownerVerdict extractedOwner
  by_cases h66 : response.length ≥ 66
  · simp [h66]
  · have h1 : response.length < 66 := by omega
    simp [h66, h1, h]

theorem ownerVerdict_short {response : GoString} (h : response.length ≤ 2) :
    ownerVerdict response =
      Except.error "unexpected response format or empty owner address".toList := by
  unfold ownerVerdict
  have h1 : ¬ response.length ≥ 66 := by omega
  have h2 : ¬ (response.length < 66 ∧ response.length > 2) := by omega
  rw [if_neg h1, if_neg h2]

/-- The probe returns `ok b` exactly on a reply longer than two bytes whose
extracted owner compares to the zero address as `b` says. -/
theorem checkOwnershipRenunciation_ok {c : Client} {a : GoString} {b : Bool}
    (h : checkOwnershipRenunciation c a = Except.ok b) :
    ∃ response, c.ethCall a ownerFunctionSelector "latest".toList = Except.ok response ∧
      2 < response.length ∧ b = decide (extractedOwner response = zeroAddress) := by
  unfold checkOwnershipRenunciation at h
  split at h
  · cases h
  · rename_i response hr
    refine ⟨response, hr, ?_⟩
    by_cases hl : 2 < response.length
    · rw [ownerVerdict_of_length hl] at h
      exact ⟨hl, (Except.ok.inj h).symm⟩
    · rw [ownerVerdict_short (by omega)] at h
      cases h

theorem checkOwnershipRenunciation_of_reply {c : Client} {a response : GoString}
    (hr : c.ethCall a ownerFunctionSelector "latest".toList = Except.ok response)
    (hl : 2 < response.length) :
    checkOwnershipRenunciation c a =
      Except.ok (decide (extractedOwner response = zeroAddress)) := by
  unfold checkOwnershipRenunciation
  rw [hr]
  exact ownerVerdict_of_length hl

/-! ## The steps of the loop body -/

theorem sizeCheck_flag {cfg : Config} {c : Client} {a code : GoString}
    (hc : c.ethGetCode (addHexPrefix a) "latest".toList = Except.ok code)
    (hl : cfg.complexityThreshold < (code.length : Int)) :
    sizeCheck cfg c a =
      [Event.rpcGetCode (addHexPrefix a), Event.printExplorer a, Event.printBlank] := by
  unfold sizeCheck getCode
  rw [hc]
  simp [hl]

theorem ownershipGate_held {cfg : Config} {c : Client} {a : GoString}
    (hco : cfg.checkOwnershipRenunc = true)
    (hv : checkOwnershipRenunciation c a = Except.ok false) :
    ownershipGate cfg c a = Event.rpcEthCall a ownerFunctionSelector :: sizeCheck cfg c a := by
  unfold ownershipGate
  rw [if_pos hco, hv]

theorem ownershipGate_stop {cfg : Config} {c : Client} {a : GoString}
    (hco : cfg.checkOwnershipRenunc = true)
    (hv : checkOwnershipRenunciation c a ≠ Except.ok false) :
    ownershipGate cfg c a =
      [Event.rpcEthCall a ownerFunctionSelector, Event.printRenounced a] := by
  unfold ownershipGate
  rw [if_pos hco]
  split
  · rfl
  · rfl
  · rename_i h
    exact absurd h hv

theorem ownershipGate_off {cfg : Config} {c : Client} {a : GoString}
    (hco : cfg.checkOwnershipRenunc = false) :
    ownershipGate cfg c a = [Event.printNotChecked a] := by
  unfold ownershipGate
  simp [hco]

theorem sampleClient_trace (cfg : Config) (reply code : Except GoString GoString) (n : Int) :
    (processBlock cfg (sampleClient reply code) n).trace =
      Event.rpcGetBlock (addHexPrefix (formatInt n 16)) :: Event.rpcGetReceipt sampleHash ::
        classify cfg (sampleClient reply code) sampleAddress := by
  have h1 : addHexPrefix sampleHash = sampleHash := by decide
  have h2 : sampleAddress ≠ [] := by decide
  simp [processBlock, sampleClient, sampleTx, mapGet, processTransactions, txHashOf,
    processHash, getContractAddress, h1, h2]

theorem sampleClient_flags {cfg : Config} {reply : GoString} {code : GoString} (n : Int)
    (hg : gateOpen cfg sampleAddress) (hco : cfg.checkOwnershipRenunc = true)
    (hr : ownerVerdict reply = Except.ok false)
    (hl : cfg.complexityThreshold < (code.length : Int)) :
    (processBlock cfg (sampleClient (Except.ok reply) (Except.ok code)) n).trace =
      [Event.rpcGetBlock (addHexPrefix (formatInt n 16)), Event.rpcGetReceipt sampleHash,
        Event.rpcEthCall sampleAddress ownerFunctionSelector,
        Event.rpcGetCode (addHexPrefix sampleAddress),
        Event.printExplorer sampleAddress, Event.printBlank] := by
  have hv : checkOwnershipRenunciation (sampleClient (Except.ok reply) (Except.ok code))
      sampleAddress = Except.ok false := hr
  rw [sampleClient_trace, classify_gateOpen _ _ _ hg, ownershipGate_held hco hv,
    sizeCheck_flag rfl hl]

theorem heldChain_trace :
    (processBlock sampleConfig heldChain 100).trace =
      [Event.rpcGetBlock (addHexPrefix (formatInt 100 16)), Event.rpcGetReceipt sampleHash,
        Event.rpcEthCall sampleAddress ownerFunctionSelector,
        Event.rpcGetCode (addHexPrefix sampleAddress),
        Event.printExplorer sampleAddress, Event.printBlank] :=
  sampleClient_flags 100 (Or.inl rfl) rfl (by decide) (by
    rw [List.length_replicate]; decide)

/-! ## The loop -/

theorem processTransactions_append (cfg : Config) (c : Client) (pre rest : List JSON)
    (hpre : ∀ t ∈ pre, txHashOf t ≠ none) :
    (processTransactions cfg c (pre ++ rest)).trace =
        (processTransactions cfg c pre).trace ++ (processTransactions cfg c rest).trace ∧
      (processTransactions cfg c (pre ++ rest)).exit = (processTransactions cfg c rest).exit := by
  induction pre with
  | nil => simp [processTransactions]
  | cons t pre ih =>
    have ht : txHashOf t ≠ none := hpre t (by simp)
    obtain ⟨txHash, hh⟩ := Option.ne_none_iff_exists'.1 ht
    have ih2 := ih (fun u hu => hpre u (by simp [hu]))
    have e1 : processTransactions cfg c (t :: (pre ++ rest)) =
        ⟨processHash cfg c txHash ++ (processTransactions cfg c (pre ++ rest)).trace,
          (processTransactions cfg c (pre ++ rest)).exit⟩ := by
      simp only [processTransactions, hh]
    have e2 : processTransactions cfg c (t :: pre) =
        ⟨processHash cfg c txHash ++ (processTransactions cfg c pre).trace,
          (processTransactions cfg c pre).exit⟩ := by
      simp only [processTransactions, hh]
    rw [List.cons_append, e1, e2]
    exact ⟨by simp only [ih2.1, List.append_assoc], ih2.2⟩

theorem processHash_resolved (cfg : Config) {c : Client} {txHash a : GoString}
    (ha : getContractAddress c txHash = Except.ok a) (hne : a ≠ []) :
    processHash cfg c txHash = Event.rpcGetReceipt (addHexPrefix txHash) :: classify cfg c a := by
  unfold processHash
  rw [ha]
  simp [hne]

/-- The trace of `processBlock` around a transaction that resolves to a
contract address. -/
theorem processBlock_segment (cfg : Config) {c : Client} {n : Int} {pre post : List JSON}
    {tx : JSON} {txHash a : GoString} (hres : ResolvesAt c n pre tx post txHash a) :
    (processBlock cfg c n).trace =
      Event.rpcGetBlock (addHexPrefix (formatInt n 16)) ::
        ((processTransactions cfg c pre).trace ++
          (Event.rpcGetReceipt (addHexPrefix txHash) :: classify cfg c a) ++
          (processTransactions cfg c post).trace) := by
  obtain ⟨result, hb, ht, hpre, hh, ha, hne⟩ := hres
  unfold processBlock
  simp only [hb, ht]
  rw [(processTransactions_append cfg c pre (tx :: post) hpre).1]
  simp only [processTransactions, hh, processHash_resolved cfg ha hne]
  simp

/-- Events of a contract whose probe does not return `renounced = false`: no
bytecode request and no explorer line. -/
theorem classify_stop {cfg : Config} {c : Client} {a : GoString}
    (hco : cfg.checkOwnershipRenunc = true)
    (hv : checkOwnershipRenunciation c a ≠ Except.ok false) :
    ∀ e ∈ classify cfg c a, (∀ x, e ≠ Event.rpcGetCode x) ∧ (∀ x, e ≠ Event.printExplorer x) := by
  intro e he
  by_cases hg : gateOpen cfg a
  · rw [classify_gateOpen _ _ _ hg, ownershipGate_stop hco hv] at he
    simp only [List.mem_cons, List.mem_singleton, List.not_mem_nil, or_false] at he
    rcases he with he | he <;> subst he <;> simp
  · rw [classify_gateShut _ _ _ hg] at he
    simp only [List.mem_append, List.mem_singleton] at he
    rcases he with he | he
    · obtain ⟨p, hp⟩ := scanPatterns_events _ _ _ he
      subst hp
      simp
    · subst he
      simp

theorem sampleTx_resolves (reply code : Except GoString GoString) (n : Int) :
    ResolvesAt (sampleClient reply code) n [] sampleTx [] sampleHash sampleAddress :=
  ⟨_, rfl, rfl, by simp, by decide,
    by simp [getContractAddress, sampleClient, mapGet], by decide⟩

/-! ## Flagged and classified addresses -/

theorem flagged_scanPatterns (code : GoString) (ps : List GoString) :
    flagged (scanPatterns code ps).2 = [] := by
  rw [List.eq_nil_iff_forall_not_mem]
  intro a ha
  obtain ⟨p, hp⟩ := scanPatterns_events _ _ _ (mem_flagged.1 ha)
  cases hp

theorem classifiedAddrs_scanPatterns (code : GoString) (ps : List GoString) :
    classifiedAddrs (scanPatterns code ps).2 = [] := by
  rw [List.eq_nil_iff_forall_not_mem]
  intro a ha
  obtain ⟨e, he, hea⟩ := List.mem_filterMap.1 ha
  obtain ⟨p, hp⟩ := scanPatterns_events _ _ _ he
  subst hp
  simp at hea

theorem classifiedAddrs_append (xs ys : List Event) :
    classifiedAddrs (xs ++ ys) = classifiedAddrs xs ++ classifiedAddrs ys := by
  simp [classifiedAddrs, List.filterMap_append]

theorem classifiedAddrs_sizeCheck (cfg : Config) (c : Client) (a : GoString) :
    classifiedAddrs (sizeCheck cfg c a) = [] := by
  unfold sizeCheck
  split
  · simp [classifiedAddrs]
  · split <;> simp [classifiedAddrs]

theorem classifiedAddrs_ownershipGate (cfg : Config) (c : Client) (a : GoString) :
    classifiedAddrs (ownershipGate cfg c a) = [a] := by
  unfold ownershipGate
  split
  · split
    · simp [classifiedAddrs]
    · simp [classifiedAddrs]
    · have h := classifiedAddrs_sizeCheck cfg c a
      unfold classifiedAddrs at h ⊢
      simp [h]
  · simp [classifiedAddrs]

/-- Every contract that reaches line 94 is seen exactly once. -/
theorem classifiedAddrs_classify (cfg : Config) (c : Client) (a : GoString) :
    classifiedAddrs (classify cfg c a) = [a] := by
  by_cases hg : gateOpen cfg a
  · rw [classify_gateOpen _ _ _ hg, classifiedAddrs_ownershipGate]
  · rw [classify_gateShut _ _ _ hg, classifiedAddrs_append]
    unfold isContractSuspicious
    rw [classifiedAddrs_scanPatterns]
    simp [classifiedAddrs]

/-- One contract gives at most one explorer line, and it carries its address. -/
theorem flagged_classify_cases (cfg : Config) (c : Client) (a : GoString) :
    flagged (classify cfg c a) = [] ∨ flagged (classify cfg c a) = [a] := by
  by_cases hg : gateOpen cfg a
  · rw [classify_gateOpen _ _ _ hg]
    unfold ownershipGate sizeCheck
    split
    · split
      · left; simp [flagged]
      · left; simp [flagged]
      · split
        · left; simp [flagged]
        · split
          · right; simp [flagged]
          · left; simp [flagged]
    · left; simp [flagged]
  · left
    rw [classify_gateShut _ _ _ hg, flagged_append]
    unfold isContractSuspicious
    rw [flagged_scanPatterns]
    simp [flagged]

/-- The converse of `explorer_mem_classify`. -/
theorem flagged_classify_of_rule {cfg : Config} {c : Client} {a code : GoString}
    (hg : gateOpen cfg a) (hco : cfg.checkOwnershipRenunc = true)
    (hv : checkOwnershipRenunciation c a = Except.ok false)
    (hc : c.ethGetCode (addHexPrefix a) "latest".toList = Except.ok code)
    (hl : cfg.complexityThreshold < (code.length : Int)) :
    flagged (classify cfg c a) = [a] := by
  rw [classify_gateOpen _ _ _ hg, ownershipGate_held hco hv, sizeCheck_flag hc hl]
  simp [flagged]

theorem flagged_processHash (cfg : Config) (c : Client) (txHash : GoString) :
    flagged (processHash cfg c txHash) =
      match getContractAddress c txHash with
      | Except.error _ => []
      | Except.ok a => if a = [] then [] else flagged (classify cfg c a) := by
  unfold processHash
  split
  · simp [flagged]
  · split <;> simp [flagged]

/-! ## The pattern scan -/

/-- The model of `strings.Contains` decides substring containment. -/
theorem stringsContains_iff (s sub : GoString) :
    stringsContains s sub = true ↔ sub <:+: s := by
  induction s with
  | nil =>
    simp [stringsContains, List.isEmpty_iff]
  | cons ch cs ih =>
    simp only [stringsContains, Bool.or_eq_true, List.infix_cons_iff, ih]
    simp

theorem scanPatterns_none (code : GoString) (ps : List GoString)
    (h : ∀ p ∈ ps, ¬ p <:+: code) : scanPatterns code ps = (false, []) := by
  induction ps with
  | nil => rfl
  | cons p rest ih =>
    have hp : stringsContains code p = false := by
      rw [← Bool.not_eq_true, stringsContains_iff]
      exact h p (by simp)
    simp only [scanPatterns, hp]
    exact ih (fun q hq => h q (by simp [hq]))

theorem scanPatterns_first (code : GoString) (ps : List GoString) (i : Nat) (p : GoString)
    (hi : ps[i]? = some p) (hp : p <:+: code)
    (hmin : ∀ j q, j < i → ps[j]? = some q → ¬ q <:+: code) :
    scanPatterns code ps = (true, [Event.printMotif p]) := by
  induction ps generalizing i with
  | nil => simp at hi
  | cons q rest ih =>
    cases i with
    | zero =>
      simp only [List.getElem?_cons_zero, Option.some.injEq] at hi
      subst hi
      have hc : stringsContains code q = true := (stringsContains_iff _ _).2 hp
      simp [scanPatterns, hc]
    | succ k =>
      have hq : stringsContains code q = false := by
        rw [← Bool.not_eq_true, stringsContains_iff]
        exact hmin 0 q (Nat.succ_pos k) (by simp)
      simp only [scanPatterns, hq]
      simp only [List.getElem?_cons_succ] at hi
      exact ih k hi (fun j r hj hr => hmin (j + 1) r (by omega) (by simpa using hr))

/-! ## Replacing the block reply -/

theorem processTransactions_withTransactions (cfg : Config) (c : Client) (txs l : List JSON) :
    processTransactions cfg (withTransactions c txs) l = processTransactions cfg c l := by
  induction l with
  | nil => rfl
  | cons t rest ih =>
    unfold processTransactions
    rw [ih]
    rfl

theorem processBlock_of_transactions (cfg : Config) {c : Client} {n : Int} {result : JMap}
    {txs : List JSON}
    (hb : c.ethGetBlockByNumber (addHexPrefix (formatInt n 16)) true = Except.ok result)
    (ht : mapGet "transactions".toList result = some (JSON.arr txs)) :
    processBlock cfg c n =
      ⟨Event.rpcGetBlock (addHexPrefix (formatInt n 16)) :: (processTransactions cfg c txs).trace,
        (processTransactions cfg c txs).exit⟩ := by
  unfold processBlock
  simp only [hb, ht]

theorem processBlock_withTransactions (cfg : Config) (c : Client) (txs : List JSON) (n : Int) :
    processBlock cfg (withTransactions c txs) n =
      ⟨Event.rpcGetBlock (addHexPrefix (formatInt n 16)) :: (processTransactions cfg c txs).trace,
        (processTransactions cfg c txs).exit⟩ := by
  have ht : mapGet "transactions".toList [("transactions".toList, JSON.arr txs)] =
      some (JSON.arr txs) := by
    simp [mapGet]
  rw [@processBlock_of_transactions cfg (withTransactions c txs) n _ txs rfl ht,
    processTransactions_withTransactions]

theorem processTransactions_wellShaped (cfg : Config) (c : Client) (l : List JSON)
    (h : ∀ t ∈ l, txHashOf t ≠ none) :
    (processTransactions cfg c l).exit = Exit.returned none := by
  have := (processTransactions_append cfg c l [] h).2
  simpa [processTransactions] using this

theorem mixedChain_receipt_fails :
    mixedChain.ethGetTransactionReceipt (addHexPrefix "0x02".toList) =
      Except.error "timeout".toList := by
  have h : addHexPrefix "0x02".toList = "0x02".toList := by decide
  rw [h]
  simp [mixedChain]

/-! ## The pattern gate on hexadecimal strings -/

theorem suspiciousPatterns_not_hex :
    ∀ p ∈ suspiciousPatterns, ∃ ch ∈ p, hexChar ch = false := by
  have h : ∀ p ∈ suspiciousPatterns, p.any (fun ch => !hexChar ch) = true := by
    set_option maxRecDepth 8000 in decide
  intro p hp
  obtain ⟨ch, hch, hb⟩ := List.any_eq_true.1 (h p hp)
  exact ⟨ch, hch, by simpa using hb⟩

theorem isContractSuspicious_hex {s : GoString} (hs : ∀ ch ∈ s, hexChar ch = true) :
    isContractSuspicious s = (false, []) := by
  apply scanPatterns_none
  intro p hp hinf
  obtain ⟨ch, hch, hb⟩ := suspiciousPatterns_not_hex p hp
  have := hs ch (hinf.subset hch)
  rw [hb] at this
  cases this

theorem classify_analysis_hex (t sl : Int) (o : Bool) (c : Client) {a : GoString}
    (hs : ∀ ch ∈ a, hexChar ch = true) :
    classify (Config.mk t sl true o) c a = classify (Config.mk t sl false o) c a := by
  rw [classify_gateOpen _ _ _ (Or.inr (by rw [isContractSuspicious_hex hs])),
    classify_gateOpen _ _ _ (Or.inl rfl)]
  rfl

theorem sampleClient_getContractAddress (reply code : Except GoString GoString)
    (txHash : GoString) :
    getContractAddress (sampleClient reply code) txHash = Except.ok sampleAddress := by
  simp [getContractAddress, sampleClient, mapGet]

/-! ## The flagging rule -/

theorem gateOpen_iff (cfg : Config) (a : GoString) :
    gateOpen cfg a ↔ ¬ (cfg.performAnalysis = true ∧ (isContractSuspicious a).1 = true) := by
  unfold gateOpen
  cases cfg.performAnalysis <;> cases (isContractSuspicious a).1 <;> simp

theorem flagRule_iff_mem_classify (cfg : Config) (c : Client) (a : GoString) :
    FlagRule cfg c a ↔ Event.printExplorer a ∈ classify cfg c a := by
  constructor
  · rintro ⟨hco, hg, hv, code, hcode, hlen⟩
    have h := flagged_classify_of_rule ((gateOpen_iff cfg a).2 hg) hco hv hcode hlen
    exact mem_flagged.1 (by rw [h]; simp)
  · intro h
    obtain ⟨_, hg, hco, hv, code, hcode, hlen⟩ := explorer_mem_classify h
    exact ⟨hco, (gateOpen_iff cfg a).1 hg, hv, code, hcode, hlen⟩

theorem addHexPrefix_iff (s : GoString) :
    (s.length ≥ 2 ∧ slice s 0 2 = "0x".toList) ↔ "0x".toList <+: s := by
  constructor
  · rintro ⟨_, h⟩
    have h2 : s.take 2 = "0x".toList := by simpa [slice] using h
    rw [← h2]
    exact List.take_prefix 2 s
  · rintro ⟨t, rfl⟩
    exact ⟨by simp, by simp [slice]⟩

/-- A reported pattern is contained in the subject and no earlier table entry
is. -/
theorem scanPatterns_reported (code : GoString) (ps : List GoString) (p : GoString)
    (h : (scanPatterns code ps).2 = [Event.printMotif p]) :
    ∃ i : Nat, ps[i]? = some p ∧ p <:+: code ∧
      ∀ (j : Nat) (q : GoString), j < i → ps[j]? = some q → ¬ q <:+: code := by
  induction ps with
  | nil => simp [scanPatterns] at h
  | cons r rest ih =>
    unfold scanPatterns at h
    split at h
    · rename_i hc
      simp only [List.cons.injEq, Event.printMotif.injEq, and_true] at h
      subst h
      exact ⟨0, by simp, (stringsContains_iff _ _).1 hc, fun j q hj => absurd hj (Nat.not_lt_zero j)⟩
    · rename_i hc
      obtain ⟨i, hi, hp, hmin⟩ := ih h
      refine ⟨i + 1, by simpa using hi, hp, ?_⟩
      intro j q hj hq
      cases j with
      | zero =>
        simp only [List.getElem?_cons_zero, Option.some.injEq] at hq
        subst hq
        rw [← stringsContains_iff]
        exact hc
      | succ k =>
        exact hmin k q (by omega) (by simpa using hq)

/-! ## Hexadecimal heights -/

theorem digitChar_hex :
    ∀ m, m < 16 → Nat.digitChar m ∈ lowerHexDigits ∧ Nat.digitChar m ≠ '_' ∧
      digitValue (Nat.digitChar m) = some m := by
  decide

theorem toDigitsCore_mem (fuel n : Nat) (ds : List Char) :
    ∀ ch ∈ Nat.toDigitsCore 16 fuel n ds, ch ∈ ds ∨ ch ∈ lowerHexDigits := by
  induction fuel generalizing n ds with
  | zero =>
    intro ch hch
    left
    simpa [Nat.toDigitsCore] using hch
  | succ fuel ih =>
    intro ch hch
    have hd := (digitChar_hex (n % 16) (Nat.mod_lt n (by decide))).1
    unfold Nat.toDigitsCore at hch
    simp only at hch
    split at hch
    · rcases List.mem_cons.1 hch with h | h
      · right; rw [h]; exact hd
      · left; exact h
    · rcases ih _ _ ch hch with h | h
      · rcases List.mem_cons.1 h with h | h
        · right; rw [h]; exact hd
        · left; exact h
      · right; exact h

theorem toDigitsCore_length_le (fuel n : Nat) (ds : List Char) :
    ds.length ≤ (Nat.toDigitsCore 16 fuel n ds).length := by
  induction fuel generalizing n ds with
  | zero => simp [Nat.toDigitsCore]
  | succ fuel ih =>
    unfold Nat.toDigitsCore
    simp only
    split
    · simp
    · exact Nat.le_trans (by simp) (ih _ _)

theorem toDigits_length_pos (n : Nat) : 1 ≤ (Nat.toDigits 16 n).length := by
  unfold Nat.toDigits Nat.toDigitsCore
  simp only
  split
  · simp
  · exact Nat.le_trans (by simp) (toDigitsCore_length_le _ _ _)

/-- The digit loop reads the digits written by `Nat.toDigitsCore` back to the
number, without a range error below `2 ^ 64`. -/
theorem parseUintLoop_toDigitsCore (fuel n : Nat) (ds : List Char) (hf : n < fuel)
    (hn : n < 2 ^ 64) :
    parseUintLoop 16 true (2 ^ 60) (2 ^ 64 - 1) 0 false (Nat.toDigitsCore 16 fuel n ds) =
      parseUintLoop 16 true (2 ^ 60) (2 ^ 64 - 1) n false ds := by
  induction fuel generalizing n ds with
  | zero => omega
  | succ fuel ih =>
    obtain ⟨_, hne, hval⟩ := digitChar_hex (n % 16) (Nat.mod_lt n (by decide))
    have hstep : ∀ k, k < 2 ^ 60 → k * 16 + n % 16 < 2 ^ 64 →
        parseUintLoop 16 true (2 ^ 60) (2 ^ 64 - 1) k false (Nat.digitChar (n % 16) :: ds) =
          parseUintLoop 16 true (2 ^ 60) (2 ^ 64 - 1) (k * 16 + n % 16) false ds := by
      intro k hk hk2
      have hm : n % 16 < 16 := Nat.mod_lt n (by decide)
      have e0 : k * 16 % 2 ^ 64 = k * 16 := Nat.mod_eq_of_lt (by omega)
      have e1 : (k * 16 + n % 16) % 2 ^ 64 = k * 16 + n % 16 := Nat.mod_eq_of_lt hk2
      rw [parseUintLoop]
      simp only [hne, false_and, if_false, hval]
      rw [if_neg (by omega), if_neg (by omega)]
      simp only [e0, e1]
      rw [if_neg (by omega)]
    unfold Nat.toDigitsCore
    simp only
    split
    · rename_i h0
      have hlt : n < 16 := by
        by_contra hge
        have : 1 ≤ n / 16 := Nat.div_pos (by omega) (by decide)
        omega
      rw [hstep 0 (by decide) (by omega)]
      have : 0 * 16 + n % 16 = n := by
        rw [Nat.mod_eq_of_lt hlt]; omega
      rw [this]
    · rename_i h0
      have hdiv : n / 16 < fuel := by
        have : n / 16 < n := Nat.div_lt_self (by omega) (by decide)
        omega
      rw [ih (n / 16) _ hdiv (by omega), hstep (n / 16) (by omega) (by omega)]
      have : n / 16 * 16 + n % 16 = n := by omega
      rw [this]

theorem parseUintLoop_toDigits (n : Nat) (hn : n < 2 ^ 64) :
    parseUintLoop 16 true (2 ^ 60) (2 ^ 64 - 1) 0 false (Nat.toDigits 16 n) =
      Except.ok (n, false) := by
  unfold Nat.toDigits
  rw [parseUintLoop_toDigitsCore (n + 1) n [] (by omega) hn]
  rfl

theorem toDigits_not_prefixed (n : Nat) : ¬ "0x".toList <+: Nat.toDigits 16 n := by
  rintro ⟨t, ht⟩
  have hx : 'x' ∈ Nat.toDigits 16 n := by
    rw [← ht]
    exact List.mem_append.2 (Or.inl (by decide))
  unfold Nat.toDigits at hx
  rcases toDigitsCore_mem _ _ _ _ hx with h | h
  · simp at h
  · revert h
    decide

theorem toDigitsCore_eq_digits (fuel n : Nat) (ds : List Char) (hf : n < fuel) (hn : 0 < n) :
    Nat.toDigitsCore 16 fuel n ds = ((Nat.digits 16 n).reverse.map Nat.digitChar) ++ ds := by
  induction fuel generalizing n ds with
  | zero => omega
  | succ fuel ih =>
    have hdef : Nat.digits 16 n = (n % 16) :: Nat.digits 16 (n / 16) :=
      Nat.digits_def' (by decide) hn
    unfold Nat.toDigitsCore
    simp only
    split
    · rename_i h0
      rw [hdef, h0]
      simp
    · rename_i h0
      have hdiv : n / 16 < fuel := by
        have : n / 16 < n := Nat.div_lt_self hn (by decide)
        omega
      rw [ih (n / 16) _ hdiv (Nat.pos_of_ne_zero h0), hdef]
      simp

theorem parseUint_hex (ds : List Char) (n : Nat) (hlen : 1 ≤ ds.length)
    (hloop : parseUintLoop 16 true (2 ^ 60) (2 ^ 64 - 1) 0 false ds = Except.ok (n, false)) :
    parseUint ('0' :: 'x' :: ds) 0 64 = (n, none) := by
  have hloop2 : parseUintLoop 16 true 1152921504606846976 18446744073709551615 0 false ds =
      Except.ok (n, false) := hloop
  have hb : (some (lowerByte 'x') = some 'b'.toNat) = False := by decide
  have ho : (some (lowerByte 'x') = some 'o'.toNat) = False := by decide
  have hx : (some (lowerByte 'x') = some 'x'.toNat) = True := by decide
  have h3 : ('0' :: 'x' :: ds).length ≥ 3 := by
    simp
    omega
  have h0 : ('0' :: 'x' :: ds)[0]? = some '0' := by simp
  have h1 : ('0' :: 'x' :: ds)[1]? = some 'x' := by simp
  have hdec : decide ((0 : Nat) = 0) = true := rfl
  unfold parseUint
  rw [if_neg (List.cons_ne_nil _ _)]
  simp only [h0, h1, Option.map_some', hb, ho, hx, h3, hdec]
  simp [hloop2]

/-! ## Claims -/

/-- C1, as amended: `processBlock` prints the explorer line for a contract
address only if `checkOwnership` is enabled, the `owner()` probe for that
address returns without error and finds ownership NOT renounced (the extracted
owner address differs from the forty-character all-zero string), and the
bytecode fetched for that address is longer than `complexityThreshold`. -/
theorem flag_only_if_owner_held (cfg : Config) (c : Client) (n : Int) (a : GoString)
    (h : Event.printExplorer a ∈ (processBlock cfg c n).trace) :
    cfg.checkOwnershipRenunc = true ∧
      (∃ response, c.ethCall a ownerFunctionSelector "latest".toList = Except.ok response ∧
        2 < response.length ∧ extractedOwner response ≠ zeroAddress ∧
        checkOwnershipRenunciation c a = Except.ok false) ∧
      (∃ code, c.ethGetCode (addHexPrefix a) "latest".toList = Except.ok code ∧
        cfg.complexityThreshold < (code.length : Int)) := by
  obtain ⟨_, _, hco, hv, code, hcode, hlen⟩ :=
    explorer_mem_classify (explorer_mem_processBlock h)
  obtain ⟨response, hr, hl, hb⟩ := checkOwnershipRenunciation_ok hv
  refine ⟨hco, ⟨response, hr, hl, ?_, hv⟩, code, hcode, hlen⟩
  intro heq
  simp [heq] at hb

/-- Witness of C1 as amended, on block 100 of `heldChain`: the contract has a
non-zero owner and 50000 bytes of code, and its explorer line is printed. -/
theorem flag_only_if_owner_held_witness :
    Event.printExplorer sampleAddress ∈ (processBlock sampleConfig heldChain 100).trace ∧
      sampleConfig.checkOwnershipRenunc = true ∧
      (∃ response,
        heldChain.ethCall sampleAddress ownerFunctionSelector "latest".toList =
          Except.ok response ∧
        2 < response.length ∧ extractedOwner response ≠ zeroAddress ∧
        checkOwnershipRenunciation heldChain sampleAddress = Except.ok false) ∧
      (∃ code,
        heldChain.ethGetCode (addHexPrefix sampleAddress) "latest".toList = Except.ok code ∧
        sampleConfig.complexityThreshold < (code.length : Int)) :=
  have h : Event.printExplorer sampleAddress ∈
      (processBlock sampleConfig heldChain 100).trace := by
    rw [heldChain_trace]
    simp
  ⟨h, flag_only_if_owner_held sampleConfig heldChain 100 sampleAddress h⟩

/-- C1 as stated fails: with `checkOwnership` enabled, an `owner()` reply that
names a non-zero owner (ownership not renounced) and 50000 bytes of code
against the threshold 40000, `processBlock` prints the explorer line. -/
theorem flag_only_if_renounced_counterexample :
    Event.printExplorer sampleAddress ∈ (processBlock sampleConfig heldChain 100).trace ∧
      sampleConfig.checkOwnershipRenunc = true ∧
      heldChain.ethCall sampleAddress ownerFunctionSelector "latest".toList =
        Except.ok heldReply ∧
      extractedOwner heldReply ≠ zeroAddress ∧
      checkOwnershipRenunciation heldChain sampleAddress = Except.ok false := by
  refine ⟨?_, rfl, rfl, by decide, by decide⟩
  rw [heldChain_trace]
  simp

/-- C2, as amended: for a contract address resolved from a block, with
`checkOwnership` enabled and the pattern gate not triggering, if the `owner()`
reply has length at least 66 with characters [26,66) NOT all zero (ownership
not renounced) and the bytecode fetched for the address is longer than
`complexityThreshold`, then `processBlock` flags the contract: the events of
that transaction are the receipt request, the `owner()` request, the bytecode
request and exactly one explorer line, which carries that address. -/
theorem flags_held_contract_over_threshold (cfg : Config) (c : Client) (n : Int)
    (pre post : List JSON) (tx : JSON) (txHash a response code : GoString)
    (hres : ResolvesAt c n pre tx post txHash a)
    (hco : cfg.checkOwnershipRenunc = true) (hg : gateOpen cfg a)
    (hr : c.ethCall a ownerFunctionSelector "latest".toList = Except.ok response)
    (hl : 66 ≤ response.length) (hown : slice response 26 66 ≠ zeroAddress)
    (hc : c.ethGetCode (addHexPrefix a) "latest".toList = Except.ok code)
    (hlen : cfg.complexityThreshold < (code.length : Int)) :
    (processBlock cfg c n).trace =
      Event.rpcGetBlock (addHexPrefix (formatInt n 16)) ::
        ((processTransactions cfg c pre).trace ++
          [Event.rpcGetReceipt (addHexPrefix txHash), Event.rpcEthCall a ownerFunctionSelector,
            Event.rpcGetCode (addHexPrefix a), Event.printExplorer a, Event.printBlank] ++
          (processTransactions cfg c post).trace) := by
  have hv : checkOwnershipRenunciation c a = Except.ok false := by
    rw [checkOwnershipRenunciation_of_reply hr (by omega)]
    have : extractedOwner response = slice response 26 66 := by
      unfold extractedOwner
      rw [if_pos hl]
    simp [this, hown]
  rw [processBlock_segment cfg hres, classify_gateOpen _ _ _ hg, ownershipGate_held hco hv,
    sizeCheck_flag hc hlen]

/-- Witness of C2 as amended: block 100 of `heldChain`. -/
theorem flags_held_contract_over_threshold_witness :
    ResolvesAt heldChain 100 [] sampleTx [] sampleHash sampleAddress ∧
      66 ≤ heldReply.length ∧ slice heldReply 26 66 ≠ zeroAddress ∧
      (processBlock sampleConfig heldChain 100).trace =
        Event.rpcGetBlock (addHexPrefix (formatInt 100 16)) ::
          ((processTransactions sampleConfig heldChain []).trace ++
            [Event.rpcGetReceipt (addHexPrefix sampleHash),
              Event.rpcEthCall sampleAddress ownerFunctionSelector,
              Event.rpcGetCode (addHexPrefix sampleAddress),
              Event.printExplorer sampleAddress, Event.printBlank] ++
            (processTransactions sampleConfig heldChain []).trace) :=
  have hres : ResolvesAt heldChain 100 [] sampleTx [] sampleHash sampleAddress :=
    sampleTx_resolves _ _ _
  ⟨hres, by decide, by decide,
    flags_held_contract_over_threshold sampleConfig heldChain 100 [] [] sampleTx sampleHash
      sampleAddress heldReply (List.replicate 50000 '6') hres rfl (Or.inl rfl) rfl
      (by decide) (by decide) rfl (by rw [List.length_replicate]; decide)⟩

/-- C2 as stated fails: on block 100 of `renouncedChain` (`checkOwnership`
enabled, analysis off, `owner()` reply `0x` and 64 zeros, 50000 bytes of code
against the threshold 40000) `processBlock` prints no explorer line and
requests no bytecode. -/
theorem flags_renounced_contract_counterexample :
    sampleConfig.checkOwnershipRenunc = true ∧ gateOpen sampleConfig sampleAddress ∧
      ResolvesAt renouncedChain 100 [] sampleTx [] sampleHash sampleAddress ∧
      renouncedChain.ethCall sampleAddress ownerFunctionSelector "latest".toList =
        Except.ok renouncedReply ∧
      66 ≤ renouncedReply.length ∧ slice renouncedReply 26 66 = List.replicate 40 '0' ∧
      renouncedChain.ethGetCode (addHexPrefix sampleAddress) "latest".toList =
        Except.ok (List.replicate 50000 '6') ∧
      sampleConfig.complexityThreshold < ((List.replicate 50000 '6').length : Int) ∧
      (processBlock sampleConfig renouncedChain 100).trace =
        [Event.rpcGetBlock "0x64".toList, Event.rpcGetReceipt sampleHash,
          Event.rpcEthCall sampleAddress ownerFunctionSelector,
          Event.printRenounced sampleAddress] ∧
      flagged (processBlock sampleConfig renouncedChain 100).trace = [] := by
  refine ⟨rfl, Or.inl rfl, sampleTx_resolves _ _ _, rfl,
    by decide, by decide, rfl, by rw [List.length_replicate]; decide, by decide, by decide⟩

/-- C3: with `checkOwnership` disabled `processBlock` prints no explorer line,
for every block, chain state, threshold and analysis setting. -/
theorem no_flag_when_ownership_check_off (cfg : Config) (c : Client) (n : Int)
    (hco : cfg.checkOwnershipRenunc = false) :
    flagged (processBlock cfg c n).trace = [] := by
  rw [List.eq_nil_iff_forall_not_mem]
  intro a ha
  have h := (explorer_mem_classify (explorer_mem_processBlock (mem_flagged.1 ha))).2.2.1
  rw [hco] at h
  cases h

/-- Witness of C3: block 100 of `heldChain`, whose contract is flagged when the
ownership check is on, with the check off. -/
theorem no_flag_when_ownership_check_off_witness :
    (Config.mk 40000 10 true false).checkOwnershipRenunc = false ∧
      flagged (processBlock (Config.mk 40000 10 true false) heldChain 100).trace = [] :=
  ⟨rfl, no_flag_when_ownership_check_off (Config.mk 40000 10 true false) heldChain 100 rfl⟩

/-- C4, as amended: with `checkOwnership` enabled, for a contract whose
`owner()` reply yields an extracted owner address EQUAL to the forty-character
all-zero string (ownership renounced), classification stops at the ownership
gate: the events of that contract hold no bytecode request and no explorer
line, whatever the bytecode; when the pattern gate lets the contract through
they are the `owner()` request and the "Ownership renounced" line, also inside
the trace of a block; and no block trace holds an explorer line for it. -/
theorem renounced_stops_at_ownership_gate (cfg : Config) (c : Client)
    (a response : GoString) (hco : cfg.checkOwnershipRenunc = true)
    (hr : c.ethCall a ownerFunctionSelector "latest".toList = Except.ok response)
    (hl : 2 < response.length) (hown : extractedOwner response = zeroAddress) :
    (∀ e ∈ classify cfg c a,
        (∀ x, e ≠ Event.rpcGetCode x) ∧ (∀ x, e ≠ Event.printExplorer x)) ∧
      (gateOpen cfg a →
        classify cfg c a =
          [Event.rpcEthCall a ownerFunctionSelector, Event.printRenounced a]) ∧
      (∀ n pre tx post txHash, ResolvesAt c n pre tx post txHash a → gateOpen cfg a →
        (processBlock cfg c n).trace =
          Event.rpcGetBlock (addHexPrefix (formatInt n 16)) ::
            ((processTransactions cfg c pre).trace ++
              [Event.rpcGetReceipt (addHexPrefix txHash),
                Event.rpcEthCall a ownerFunctionSelector, Event.printRenounced a] ++
              (processTransactions cfg c post).trace)) ∧
      ∀ n, Event.printExplorer a ∉ (processBlock cfg c n).trace := by
  have hv : checkOwnershipRenunciation c a ≠ Except.ok false := by
    rw [checkOwnershipRenunciation_of_reply hr hl]
    simp [hown]
  have hstop := classify_stop hco hv
  refine ⟨hstop, ?_, ?_, ?_⟩
  · intro hg
    rw [classify_gateOpen _ _ _ hg, ownershipGate_stop hco hv]
  · intro n pre tx post txHash hres hg
    rw [processBlock_segment cfg hres, classify_gateOpen _ _ _ hg, ownershipGate_stop hco hv]
  · intro n hmem
    exact (hstop _ (explorer_mem_processBlock hmem)).2 a rfl

/-- Witness of C4 as amended: the contract of `renouncedChain`. -/
theorem renounced_stops_at_ownership_gate_witness :
    sampleConfig.checkOwnershipRenunc = true ∧
      renouncedChain.ethCall sampleAddress ownerFunctionSelector "latest".toList =
        Except.ok renouncedReply ∧
      2 < renouncedReply.length ∧ extractedOwner renouncedReply = zeroAddress ∧
      classify sampleConfig renouncedChain sampleAddress =
        [Event.rpcEthCall sampleAddress ownerFunctionSelector,
          Event.printRenounced sampleAddress] ∧
      Event.printExplorer sampleAddress ∉ (processBlock sampleConfig renouncedChain 100).trace :=
  have h := renounced_stops_at_ownership_gate sampleConfig renouncedChain sampleAddress
    renouncedReply rfl rfl (by decide) (by decide)
  ⟨rfl, rfl, by decide, by decide, h.2.1 (Or.inl rfl), h.2.2.2 100⟩

/-- C4 as stated fails: on block 100 of `heldChain` the `owner()` reply yields
a non-zero owner (ownership not renounced), yet `processBlock` requests the
bytecode of the contract and prints its explorer line. -/
theorem held_stops_at_ownership_gate_counterexample :
    sampleConfig.checkOwnershipRenunc = true ∧
      ResolvesAt heldChain 100 [] sampleTx [] sampleHash sampleAddress ∧
      heldChain.ethCall sampleAddress ownerFunctionSelector "latest".toList =
        Except.ok heldReply ∧
      extractedOwner heldReply ≠ zeroAddress ∧
      Event.rpcGetCode (addHexPrefix sampleAddress) ∈
        (processBlock sampleConfig heldChain 100).trace ∧
      flagged (processBlock sampleConfig heldChain 100).trace = [sampleAddress] := by
  refine ⟨rfl, sampleTx_resolves _ _ _, rfl, by decide, ?_, ?_⟩
  · rw [heldChain_trace]
    simp
  · rw [heldChain_trace]
    rfl

/-- C5 at the failing input: for the 42-byte reply `0x` followed by forty
zeros, characters [2,42) are the zero address, but
`extractAddressFromResponse` returns the empty string and the probe reports
`renounced = false`. -/
theorem bare_zero_reply_not_renounced :
    bareZeroReply.length = 42 ∧ slice bareZeroReply 2 42 = zeroAddress ∧
      extractAddressFromResponse bareZeroReply = [] ∧
      checkOwnershipRenunciation (sampleClient (Except.ok bareZeroReply) (Except.ok []))
        sampleAddress = Except.ok false := by
  decide

/-- C6: for an `owner()` reply of length at least 66 the probe returns no
error and takes characters [26,66) as the owner address: the result is
`renounced = true` exactly when these forty characters are the all-zero
string, and `false` for every other value. -/
theorem long_reply_owner_is_chars_26_to_66 (c : Client) (a response : GoString)
    (hr : c.ethCall a ownerFunctionSelector "latest".toList = Except.ok response)
    (hl : 66 ≤ response.length) :
    extractedOwner response = slice response 26 66 ∧
      (slice response 26 66).length = 40 ∧
      (∀ i, i < 40 → (slice response 26 66)[i]? = response[26 + i]?) ∧
      checkOwnershipRenunciation c a =
        Except.ok (decide (slice response 26 66 = zeroAddress)) ∧
      (checkOwnershipRenunciation c a = Except.ok true ↔
        slice response 26 66 = "0000000000000000000000000000000000000000".toList) ∧
      (checkOwnershipRenunciation c a = Except.ok false ↔
        slice response 26 66 ≠ "0000000000000000000000000000000000000000".toList) := by
  have he : extractedOwner response = slice response 26 66 := by
    unfold extractedOwner
    rw [if_pos hl]
  have hv := checkOwnershipRenunciation_of_reply hr (show 2 < response.length by omega)
  rw [he] at hv
  refine ⟨he, ?_, ?_, hv, ?_, ?_⟩
  · simp [slice]
    omega
  · intro i hi
    simp [slice, List.getElem?_drop, List.getElem?_take, hi]
    omega
  · rw [hv]
    simp [zeroAddress]
  · rw [hv]
    simp [zeroAddress]

/-- Witness of C6: the replies of `renouncedChain` and `heldChain`. -/
theorem long_reply_owner_is_chars_26_to_66_witness :
    66 ≤ renouncedReply.length ∧ 66 ≤ heldReply.length ∧
      checkOwnershipRenunciation renouncedChain sampleAddress = Except.ok true ∧
      checkOwnershipRenunciation heldChain sampleAddress = Except.ok false :=
  have h := long_reply_owner_is_chars_26_to_66 renouncedChain sampleAddress renouncedReply rfl
    (by decide)
  have g := long_reply_owner_is_chars_26_to_66 heldChain sampleAddress heldReply rfl
    (by decide)
  ⟨by decide, by decide, h.2.2.2.2.1.2 (by decide), g.2.2.2.2.2.2 (by decide)⟩

/-- C7: when the `owner()` call fails, and for every reply of length at most
two, `checkOwnershipRenunciation` returns an error; and with `checkOwnership`
enabled a contract whose probe returns an error is skipped: its events hold no
bytecode request and no explorer line (when the pattern gate lets it through
they are the `owner()` request and the line 102, also inside the trace of a
block), and no block trace holds an explorer line for it. -/
theorem probe_error_skips_contract (cfg : Config) (c : Client) (a : GoString) :
    (∀ err, c.ethCall a ownerFunctionSelector "latest".toList = Except.error err →
        checkOwnershipRenunciation c a =
          Except.error ("error calling contract: ".toList ++ err)) ∧
      (∀ response, c.ethCall a ownerFunctionSelector "latest".toList = Except.ok response →
        response.length ≤ 2 →
        checkOwnershipRenunciation c a =
          Except.error "unexpected response format or empty owner address".toList) ∧
      (∀ err, cfg.checkOwnershipRenunc = true →
        checkOwnershipRenunciation c a = Except.error err →
        (∀ e ∈ classify cfg c a,
          (∀ x, e ≠ Event.rpcGetCode x) ∧ (∀ x, e ≠ Event.printExplorer x)) ∧
        (gateOpen cfg a →
          classify cfg c a =
            [Event.rpcEthCall a ownerFunctionSelector, Event.printRenounced a]) ∧
        (∀ n pre tx post txHash, ResolvesAt c n pre tx post txHash a → gateOpen cfg a →
          (processBlock cfg c n).trace =
            Event.rpcGetBlock (addHexPrefix (formatInt n 16)) ::
              ((processTransactions cfg c pre).trace ++
                [Event.rpcGetReceipt (addHexPrefix txHash),
                  Event.rpcEthCall a ownerFunctionSelector, Event.printRenounced a] ++
                (processTransactions cfg c post).trace)) ∧
        ∀ n, Event.printExplorer a ∉ (processBlock cfg c n).trace) := by
  refine ⟨?_, ?_, ?_⟩
  · intro err he
    unfold checkOwnershipRenunciation
    rw [he]
  · intro response hr hl
    unfold checkOwnershipRenunciation
    rw [hr]
    exact ownerVerdict_short hl
  · intro err hco herr
    have hv : checkOwnershipRenunciation c a ≠ Except.ok false := by
      rw [herr]
      simp
    have hstop := classify_stop hco hv
    refine ⟨hstop, ?_, ?_, ?_⟩
    · intro hg
      rw [classify_gateOpen _ _ _ hg, ownershipGate_stop hco hv]
    · intro n pre tx post txHash hres hg
      rw [processBlock_segment cfg hres, classify_gateOpen _ _ _ hg, ownershipGate_stop hco hv]
    · intro n hmem
      exact (hstop _ (explorer_mem_processBlock hmem)).2 a rfl

/-- Witness of C7: a chain whose `owner()` call times out, and one whose reply
is the two bytes `0x`; in both the contract has 50000 bytes of code. -/
theorem probe_error_skips_contract_witness :
    checkOwnershipRenunciation
        (sampleClient (Except.error "timeout".toList) (Except.ok (List.replicate 50000 '6')))
        sampleAddress = Except.error "error calling contract: timeout".toList ∧
      checkOwnershipRenunciation
        (sampleClient (Except.ok "0x".toList) (Except.ok (List.replicate 50000 '6')))
        sampleAddress =
          Except.error "unexpected response format or empty owner address".toList ∧
      (processBlock sampleConfig
        (sampleClient (Except.ok "0x".toList) (Except.ok (List.replicate 50000 '6')))
        100).trace =
        [Event.rpcGetBlock "0x64".toList, Event.rpcGetReceipt sampleHash,
          Event.rpcEthCall sampleAddress ownerFunctionSelector,
          Event.printRenounced sampleAddress] ∧
      Event.printExplorer sampleAddress ∉
        (processBlock sampleConfig
          (sampleClient (Except.error "timeout".toList)
            (Except.ok (List.replicate 50000 '6'))) 100).trace :=
  have h1 := probe_error_skips_contract sampleConfig
    (sampleClient (Except.error "timeout".toList) (Except.ok (List.replicate 50000 '6')))
    sampleAddress
  have h2 := probe_error_skips_contract sampleConfig
    (sampleClient (Except.ok "0x".toList) (Except.ok (List.replicate 50000 '6')))
    sampleAddress
  ⟨h1.1 "timeout".toList rfl, h2.2.1 "0x".toList rfl (by decide),
    (h2.2.2 _ rfl (h2.2.1 "0x".toList rfl (by decide))).2.2.1 100 [] sampleTx [] sampleHash
      (sampleTx_resolves _ _ _) (Or.inl rfl),
    (h1.2.2 _ rfl (h1.1 "timeout".toList rfl)).2.2.2 100⟩

/-- C8: classification is monotone in the threshold. For a fixed block, chain
state and toggles and thresholds `t1 ≤ t2`, the sequence of contracts flagged
with threshold `t2` is a subsequence of the one flagged with `t1`. -/
theorem flagged_monotone_in_threshold (t1 t2 sleep : Int) (analysis ownership : Bool)
    (c : Client) (n : Int) (h : t1 ≤ t2) :
    (flagged (processBlock (Config.mk t2 sleep analysis ownership) c n).trace).Sublist
      (flagged (processBlock (Config.mk t1 sleep analysis ownership) c n).trace) := by
  have hclass : ∀ a, (flagged (classify (Config.mk t2 sleep analysis ownership) c a)).Sublist
      (flagged (classify (Config.mk t1 sleep analysis ownership) c a)) := by
    intro a
    rcases flagged_classify_cases (Config.mk t2 sleep analysis ownership) c a with h0 | h1
    · rw [h0]
      exact List.nil_sublist _
    · have hm : Event.printExplorer a ∈ classify (Config.mk t2 sleep analysis ownership) c a :=
        mem_flagged.1 (by rw [h1]; simp)
      obtain ⟨_, hg, hco, hv, code, hcode, hlen⟩ := explorer_mem_classify hm
      have hlen1 : (Config.mk t1 sleep analysis ownership).complexityThreshold <
          (code.length : Int) := lt_of_le_of_lt h hlen
      rw [h1, @flagged_classify_of_rule (Config.mk t1 sleep analysis ownership) c a code
        hg hco hv hcode hlen1]
  have hhash : ∀ txHash,
      (flagged (processHash (Config.mk t2 sleep analysis ownership) c txHash)).Sublist
        (flagged (processHash (Config.mk t1 sleep analysis ownership) c txHash)) := by
    intro txHash
    rw [flagged_processHash, flagged_processHash]
    split
    · exact List.Sublist.refl _
    · split
      · exact List.Sublist.refl _
      · exact hclass _
  have hloop : ∀ txs,
      (flagged (processTransactions (Config.mk t2 sleep analysis ownership) c txs).trace).Sublist
        (flagged (processTransactions (Config.mk t1 sleep analysis ownership) c txs).trace) := by
    intro txs
    induction txs with
    | nil => simp [processTransactions]
    | cons tx rest ih =>
      unfold processTransactions
      split
      · simp
      · simp only [flagged_append]
        exact List.Sublist.append (hhash _) ih
  unfold processBlock
  simp only
  split
  · simp
  · split
    · simp only [flagged, List.filterMap_cons]
      exact hloop _
    · simp

/-- Witness of C8: the contract of `heldChain` has 50000 bytes of code; it is
flagged with threshold 40000 and not with threshold 60000. -/
theorem flagged_monotone_in_threshold_witness :
    (40000 : Int) ≤ 60000 ∧
      (flagged (processBlock (Config.mk 60000 10 false true) heldChain 100).trace).Sublist
        (flagged (processBlock (Config.mk 40000 10 false true) heldChain 100).trace) :=
  ⟨by decide,
    flagged_monotone_in_threshold 40000 60000 10 false true heldChain 100 (by decide)⟩

/-- C9: for a block whose `transactions` are objects with a string `hash`, the
sequence of contract addresses that `processBlock` passes on to classification
is, in transaction order, the `contractAddress` of exactly the transactions
whose receipt carries a non-empty string `contractAddress`, and `processBlock`
returns `nil`; a transaction whose receipt has a null, absent, non-string or
empty `contractAddress` leaves the receipt request as its only event. -/
theorem classified_eq_resolved (cfg : Config) (c : Client) (n : Int) (result : JMap)
    (txs : List JSON)
    (hb : c.ethGetBlockByNumber (addHexPrefix (formatInt n 16)) true = Except.ok result)
    (ht : mapGet "transactions".toList result = some (JSON.arr txs))
    (hshape : ∀ t ∈ txs, txHashOf t ≠ none) :
    classifiedAddrs (processBlock cfg c n).trace = resolveSpec c txs ∧
      (processBlock cfg c n).exit = Exit.returned none ∧
      ∀ txHash receipt, c.ethGetTransactionReceipt (addHexPrefix txHash) = Except.ok receipt →
        (∀ s, mapGet "contractAddress".toList receipt = some (JSON.str s) → s = []) →
        processHash cfg c txHash = [Event.rpcGetReceipt (addHexPrefix txHash)] := by
  have hhash : ∀ tx txHash, txHashOf tx = some txHash →
      classifiedAddrs (processHash cfg c txHash) = (receiptContract c tx).toList := by
    intro tx txHash hh
    unfold processHash receiptContract getContractAddress
    rw [hh]
    simp only
    cases hrc : c.ethGetTransactionReceipt (addHexPrefix txHash) with
    | error err => simp [classifiedAddrs]
    | ok receipt =>
      simp only
      cases hm : mapGet "contractAddress".toList receipt with
      | none => simp [classifiedAddrs]
      | some v =>
        cases v with
        | str a =>
          simp only
          by_cases hne : a = []
          · simp [hne, classifiedAddrs]
          · have hcl := classifiedAddrs_classify cfg c a
            unfold classifiedAddrs at hcl ⊢
            simp [hne, hcl]
        | _ => simp [classifiedAddrs]
  have hloop : ∀ l : List JSON, (∀ t ∈ l, txHashOf t ≠ none) →
      classifiedAddrs (processTransactions cfg c l).trace = resolveSpec c l ∧
        (processTransactions cfg c l).exit = Exit.returned none := by
    intro l
    induction l with
    | nil => intro _; simp [processTransactions, classifiedAddrs, resolveSpec]
    | cons tx rest ih =>
      intro hl
      obtain ⟨txHash, hh⟩ := Option.ne_none_iff_exists'.1 (hl tx (by simp))
      have ih2 := ih (fun u hu => hl u (by simp [hu]))
      have e1 : processTransactions cfg c (tx :: rest) =
          ⟨processHash cfg c txHash ++ (processTransactions cfg c rest).trace,
            (processTransactions cfg c rest).exit⟩ := by
        simp only [processTransactions, hh]
      rw [e1]
      refine ⟨?_, ih2.2⟩
      simp only [classifiedAddrs_append, hhash tx txHash hh, ih2.1]
      unfold resolveSpec
      cases hr : receiptContract c tx <;> simp [List.filterMap_cons, hr]
  refine ⟨?_, ?_, ?_⟩
  · unfold processBlock
    simp only [hb, ht]
    have h := (hloop txs hshape).1
    unfold classifiedAddrs at h ⊢
    simpa using h
  · unfold processBlock
    simp only [hb, ht]
    exact (hloop txs hshape).2
  · intro txHash receipt hr hs
    unfold processHash getContractAddress
    rw [hr]
    simp only
    cases hm : mapGet "contractAddress".toList receipt with
    | none => simp
    | some v =>
      cases v with
      | str a => simp [hs a hm]
      | _ => simp

/-- Witness of C9: the block of `mixedChain` has a transaction with a null
`contractAddress`, one whose receipt request fails and one that created
`sampleAddress`; only the last address is classified. -/
theorem classified_eq_resolved_witness :
    classifiedAddrs (processBlock sampleConfig mixedChain 100).trace = [sampleAddress] ∧
      (processBlock sampleConfig mixedChain 100).exit = Exit.returned none ∧
      processHash sampleConfig mixedChain "0x01".toList =
        [Event.rpcGetReceipt "0x01".toList] :=
  have h := classified_eq_resolved sampleConfig mixedChain 100 _
    [JSON.obj [("hash".toList, JSON.str "0x01".toList)],
      JSON.obj [("hash".toList, JSON.str "0x02".toList)], sampleTx] rfl rfl (by decide)
  ⟨h.1.trans (by decide), h.2.1,
    h.2.2 "0x01".toList [("contractAddress".toList, JSON.null)] rfl (by
      intro s hs
      simp [mapGet] at hs)⟩

/-- C10: for every subject string `s`, if `s` contains no pattern of the table
as a substring, `isContractSuspicious s` returns `false` and prints nothing;
if the pattern at table position `i` is contained in `s` and no pattern at an
earlier position is, it returns `true` and the pattern it reports is that
one. -/
theorem pattern_gate_reports_first_match (s : GoString) :
    ((∀ p ∈ suspiciousPatterns, ¬ p <:+: s) → isContractSuspicious s = (false, [])) ∧
      (∀ (i : Nat) (p : GoString), suspiciousPatterns[i]? = some p → p <:+: s →
        (∀ (j : Nat) (q : GoString), j < i → suspiciousPatterns[j]? = some q → ¬ q <:+: s) →
        isContractSuspicious s = (true, [Event.printMotif p])) ∧
      ((∃ p ∈ suspiciousPatterns, p <:+: s) → (isContractSuspicious s).1 = true) :=
  ⟨scanPatterns_none s suspiciousPatterns,
    fun i p hi hp hmin => scanPatterns_first s suspiciousPatterns i p hi hp hmin,
    by
      intro h
      by_contra hne
      have hf : (isContractSuspicious s).1 = false := by simpa using hne
      obtain ⟨p, hp, hps⟩ := h
      have key : ∀ ps : List GoString, (scanPatterns s ps).1 = false →
          ∀ q ∈ ps, ¬ q <:+: s := by
        intro ps
        induction ps with
        | nil => simp
        | cons r rest ih =>
          intro hsc q hq
          unfold scanPatterns at hsc
          split at hsc
          · simp at hsc
          · rename_i hr
            rcases List.mem_cons.1 hq with hq | hq
            · subst hq
              rw [stringsContains_iff] at hr
              exact hr
            · exact ih hsc q hq
      exact key suspiciousPatterns hf p hp hps⟩

/-- Witness of C10: a subject that contains both `gasprice` (position 27) and
`tx.gasprice` (position 29) reports `gasprice`; a hexadecimal address contains
no pattern. -/
theorem pattern_gate_reports_first_match_witness :
    isContractSuspicious "uint p = tx.gasprice;".toList =
        (true, [Event.printMotif "gasprice".toList]) ∧
      isContractSuspicious sampleAddress = (false, []) :=
  ⟨(pattern_gate_reports_first_match "uint p = tx.gasprice;".toList).2.1 27
      "gasprice".toList (by decide) ((stringsContains_iff _ _).1 (by decide)) (by
        intro j q hj hq
        have hm : q ∈ suspiciousPatterns.take 27 :=
          List.mem_iff_getElem?.2 ⟨j, by rw [List.getElem?_take_of_lt hj]; exact hq⟩
        have hall : ∀ r ∈ suspiciousPatterns.take 27,
            stringsContains "uint p = tx.gasprice;".toList r = false := by
          set_option maxRecDepth 8000 in decide
        rw [← stringsContains_iff, hall q hm]
        simp),
    (pattern_gate_reports_first_match sampleAddress).1 (by
      intro p hp
      have hall : ∀ r ∈ suspiciousPatterns, stringsContains sampleAddress r = false := by
        set_option maxRecDepth 8000 in decide
      rw [← stringsContains_iff, hall p hp]
      simp)⟩

/-- C11 at the failing inputs: on a block reply without a `transactions`
field, on a `transactions` list whose entry is not an object, and on an entry
whose `hash` is not a string, `processBlock` panics at a type assertion of
lines 81, 83 and 84 instead of returning; a well-formed entry before the
malformed one is still processed. -/
theorem malformed_block_panics :
    (processBlock sampleConfig emptyBlockChain 100).exit = Exit.panicked ∧
      (processBlock sampleConfig (withTransactions heldChain [JSON.null]) 100).exit =
        Exit.panicked ∧
      (processBlock sampleConfig
        (withTransactions heldChain [JSON.obj [("hash".toList, JSON.num "7".toList)]])
        100).exit = Exit.panicked ∧
      (processBlock sampleConfig (withTransactions heldChain [JSON.obj []]) 100).exit =
        Exit.panicked ∧
      (processBlock sampleConfig (withTransactions renouncedChain [sampleTx, JSON.null])
        100).exit = Exit.panicked ∧
      (processBlock sampleConfig (withTransactions renouncedChain [sampleTx, JSON.null])
        100).trace =
        [Event.rpcGetBlock "0x64".toList, Event.rpcGetReceipt sampleHash,
          Event.rpcEthCall sampleAddress ownerFunctionSelector,
          Event.printRenounced sampleAddress] := by
  decide

/-- C12: when the receipt request of a transaction fails, `processBlock` skips
only that transaction: its events are the request and the error line of line
87, the explorer lines and the way the run ends are those of the block with
that transaction removed, and on a block whose other entries are well formed
`processBlock` returns `nil`. -/
theorem failed_receipt_skips_only_that_transaction (cfg : Config) (c : Client) (n : Int)
    (result : JMap) (pre post : List JSON) (tx : JSON) (txHash err : GoString)
    (hb : c.ethGetBlockByNumber (addHexPrefix (formatInt n 16)) true = Except.ok result)
    (ht : mapGet "transactions".toList result = some (JSON.arr (pre ++ tx :: post)))
    (hh : txHashOf tx = some txHash)
    (hr : c.ethGetTransactionReceipt (addHexPrefix txHash) = Except.error err) :
    processHash cfg c txHash =
        [Event.rpcGetReceipt (addHexPrefix txHash), Event.printReceiptError err] ∧
      flagged (processBlock cfg c n).trace =
        flagged (processBlock cfg (withTransactions c (pre ++ post)) n).trace ∧
      (processBlock cfg c n).exit =
        (processBlock cfg (withTransactions c (pre ++ post)) n).exit ∧
      ((∀ t ∈ pre ++ post, txHashOf t ≠ none) →
        (processBlock cfg c n).exit = Exit.returned none ∧
        (processBlock cfg c n).trace =
          Event.rpcGetBlock (addHexPrefix (formatInt n 16)) ::
            ((processTransactions cfg c pre).trace ++
              [Event.rpcGetReceipt (addHexPrefix txHash), Event.printReceiptError err] ++
              (processTransactions cfg c post).trace)) := by
  have hph : processHash cfg c txHash =
      [Event.rpcGetReceipt (addHexPrefix txHash), Event.printReceiptError err] := by
    unfold processHash getContractAddress
    rw [hr]
  have hstep : ∀ l, processTransactions cfg c (tx :: l) =
      ⟨processHash cfg c txHash ++ (processTransactions cfg c l).trace,
        (processTransactions cfg c l).exit⟩ := by
    intro l
    simp only [processTransactions, hh]
  have hloop : ∀ l : List JSON,
      flagged (processTransactions cfg c (l ++ tx :: post)).trace =
          flagged (processTransactions cfg c (l ++ post)).trace ∧
        (processTransactions cfg c (l ++ tx :: post)).exit =
          (processTransactions cfg c (l ++ post)).exit := by
    intro l
    induction l with
    | nil =>
      simp only [List.nil_append, hstep, hph, flagged_append]
      simp [flagged]
    | cons t rest ih =>
      simp only [List.cons_append]
      unfold processTransactions
      split
      · simp
      · simp only [flagged_append, ih.1, ih.2]
        simp
  rw [processBlock_of_transactions cfg hb ht, processBlock_withTransactions]
  refine ⟨hph, ?_, (hloop pre).2, ?_⟩
  · have h := (hloop pre).1
    simp only [flagged, List.filterMap_cons] at h ⊢
    exact h
  · intro hshape
    have hpre : ∀ t ∈ pre, txHashOf t ≠ none := fun t ht => hshape t (by simp [ht])
    have hpost : ∀ t ∈ post, txHashOf t ≠ none := fun t ht => hshape t (by simp [ht])
    have happ := processTransactions_append cfg c pre (tx :: post) hpre
    refine ⟨?_, ?_⟩
    · simp only
      rw [happ.2, hstep]
      exact processTransactions_wellShaped cfg c post hpost
    · simp only
      rw [happ.1, hstep, hph]
      simp

/-- Witness of C12: in the block of `mixedChain` the receipt request of the
second transaction fails; the block still returns `nil` and flags the
contract of the third transaction. -/
theorem failed_receipt_skips_only_that_transaction_witness :
    mixedChain.ethGetTransactionReceipt (addHexPrefix "0x02".toList) =
        Except.error "timeout".toList ∧
      (processBlock (Config.mk 4 10 false true) mixedChain 100).exit = Exit.returned none ∧
      flagged (processBlock (Config.mk 4 10 false true) mixedChain 100).trace =
        flagged (processBlock (Config.mk 4 10 false true)
          (withTransactions mixedChain
            ([JSON.obj [("hash".toList, JSON.str "0x01".toList)]] ++ [sampleTx])) 100).trace ∧
      flagged (processBlock (Config.mk 4 10 false true) mixedChain 100).trace =
        [sampleAddress] :=
  have h := failed_receipt_skips_only_that_transaction (Config.mk 4 10 false true) mixedChain
    100 _ [JSON.obj [("hash".toList, JSON.str "0x01".toList)]] [sampleTx]
    (JSON.obj [("hash".toList, JSON.str "0x02".toList)]) "0x02".toList "timeout".toList
    rfl rfl (by decide) mixedChain_receipt_fails
  ⟨mixedChain_receipt_fails, (h.2.2.2 (by decide)).1, h.2.1, by decide⟩

/-- C13 at the failing input: with analysis enabled, the bytecode of the
contract of `patternCodeChain` contains the pattern `selfdestruct(`, but the
gate of line 94 is evaluated on the contract address, which contains no
pattern: the contract is not skipped as suspicious, its bytecode is fetched
only after the ownership gate, and its explorer line is printed. With the
ownership check off no bytecode is requested at all, although analysis is
enabled. -/
theorem gate_subject_is_address_not_bytecode :
    patternCodeChain.ethGetCode (addHexPrefix sampleAddress) "latest".toList =
        Except.ok "0x6080 selfdestruct(owner)".toList ∧
      isContractSuspicious "0x6080 selfdestruct(owner)".toList =
        (true, [Event.printMotif "selfdestruct(".toList]) ∧
      isContractSuspicious sampleAddress = (false, []) ∧
      (processBlock (Config.mk 4 10 true true) patternCodeChain 100).trace =
        [Event.rpcGetBlock "0x64".toList, Event.rpcGetReceipt sampleHash,
          Event.rpcEthCall sampleAddress ownerFunctionSelector,
          Event.rpcGetCode sampleAddress,
          Event.printExplorer sampleAddress, Event.printBlank] ∧
      (processBlock (Config.mk 40000 10 true false) heldChain 100).trace =
        [Event.rpcGetBlock "0x64".toList, Event.rpcGetReceipt sampleHash,
          Event.printNotChecked sampleAddress] := by
  refine ⟨rfl, ?_, ?_, ?_, ?_⟩
  · set_option maxRecDepth 8000 in decide
  · set_option maxRecDepth 8000 in decide
  · set_option maxRecDepth 8000 in decide
  · set_option maxRecDepth 8000 in decide

/-- C14: the pattern gate never triggers on hex-encoded values. For every
string made only of the characters `0`-`9`, `a`-`f`, `A`-`F` and `x`,
`isContractSuspicious` returns `false` and prints nothing; the events of such
a contract address are the same with analysis enabled and disabled; and on a
chain whose receipts carry only such contract addresses `processBlock` gives
the same trace and ends the same way with analysis enabled and disabled. -/
theorem pattern_gate_never_triggers_on_hex (t sl : Int) (o : Bool) (c : Client) :
    (∀ s : GoString, (∀ ch ∈ s, hexChar ch = true) → isContractSuspicious s = (false, [])) ∧
      (∀ a : GoString, (∀ ch ∈ a, hexChar ch = true) →
        classify (Config.mk t sl true o) c a = classify (Config.mk t sl false o) c a) ∧
      ((∀ txHash a, getContractAddress c txHash = Except.ok a → ∀ ch ∈ a, hexChar ch = true) →
        ∀ n, (processBlock (Config.mk t sl true o) c n).trace =
            (processBlock (Config.mk t sl false o) c n).trace ∧
          (processBlock (Config.mk t sl true o) c n).exit =
            (processBlock (Config.mk t sl false o) c n).exit) := by
  refine ⟨fun s hs => isContractSuspicious_hex hs,
    fun a ha => classify_analysis_hex t sl o c ha, ?_⟩
  intro hchain n
  have hhash : ∀ txHash, processHash (Config.mk t sl true o) c txHash =
      processHash (Config.mk t sl false o) c txHash := by
    intro txHash
    unfold processHash
    cases hg : getContractAddress c txHash with
    | error err => rfl
    | ok a =>
      simp only
      by_cases hne : a = []
      · simp [hne]
      · simp only [if_neg hne]
        rw [classify_analysis_hex t sl o c (hchain txHash a hg)]
  have hloop : ∀ l, processTransactions (Config.mk t sl true o) c l =
      processTransactions (Config.mk t sl false o) c l := by
    intro l
    induction l with
    | nil => rfl
    | cons tx rest ih =>
      unfold processTransactions
      rw [ih]
      split
      · rfl
      · rw [hhash]
  have hrun : processBlock (Config.mk t sl true o) c n =
      processBlock (Config.mk t sl false o) c n := by
    unfold processBlock
    simp only [hloop]
  rw [hrun]
  exact ⟨rfl, rfl⟩

/-- Witness of C14: the address and the chain of `heldChain`. -/
theorem pattern_gate_never_triggers_on_hex_witness :
    (∀ ch ∈ sampleAddress, hexChar ch = true) ∧
      isContractSuspicious sampleAddress = (false, []) ∧
      (processBlock (Config.mk 40000 10 true true) heldChain 100).trace =
        (processBlock (Config.mk 40000 10 false true) heldChain 100).trace :=
  have h := pattern_gate_never_triggers_on_hex 40000 10 true heldChain
  have hs : ∀ ch ∈ sampleAddress, hexChar ch = true := by decide
  ⟨hs, h.1 sampleAddress hs,
    (h.2.2 (by
      intro txHash a ha
      have h2 : getContractAddress heldChain txHash = Except.ok sampleAddress :=
        sampleClient_getContractAddress _ _ txHash
      rw [h2] at ha
      cases ha
      exact hs) 100).1⟩

/-- C16: the exact flagging rule. The events of a contract address `a` hold
its explorer line exactly when `checkOwnership` is enabled, not (analysis is
enabled and `isContractSuspicious a`), the probe returns no error with
`renounced = false`, and the bytecode fetch succeeds with a length strictly
above `complexityThreshold`; then there is exactly one such line, otherwise
none. The same holds for the trace of a block in which a transaction resolves
to `a`, and a bytecode length equal to the threshold is not flagged. -/
theorem exact_flagging_rule (cfg : Config) (c : Client) (a : GoString) :
    (Event.printExplorer a ∈ classify cfg c a ↔
        cfg.checkOwnershipRenunc = true ∧
          ¬ (cfg.performAnalysis = true ∧ (isContractSuspicious a).1 = true) ∧
          checkOwnershipRenunciation c a = Except.ok false ∧
          ∃ code, getCode c a = Except.ok code ∧
            cfg.complexityThreshold < (code.length : Int)) ∧
      (FlagRule cfg c a → flagged (classify cfg c a) = [a]) ∧
      (¬ FlagRule cfg c a → flagged (classify cfg c a) = []) ∧
      (∀ n pre tx post txHash, ResolvesAt c n pre tx post txHash a →
        (Event.printExplorer a ∈ (processBlock cfg c n).trace ↔ FlagRule cfg c a)) ∧
      (∀ code, getCode c a = Except.ok code → (code.length : Int) = cfg.complexityThreshold →
        ∀ n, Event.printExplorer a ∉ (processBlock cfg c n).trace) := by
  refine ⟨(flagRule_iff_mem_classify cfg c a).symm, ?_, ?_, ?_, ?_⟩
  · rintro ⟨hco, hg, hv, code, hcode, hlen⟩
    exact flagged_classify_of_rule ((gateOpen_iff cfg a).2 hg) hco hv hcode hlen
  · intro hn
    rcases flagged_classify_cases cfg c a with h | h
    · exact h
    · exact absurd ((flagRule_iff_mem_classify cfg c a).2 (mem_flagged.1 (by rw [h]; simp))) hn
  · intro n pre tx post txHash hres
    constructor
    · intro h
      exact (flagRule_iff_mem_classify cfg c a).2 (explorer_mem_processBlock h)
    · intro h
      rw [processBlock_segment cfg hres]
      have := (flagRule_iff_mem_classify cfg c a).1 h
      simp [this]
  · intro code hcode heq n hmem
    obtain ⟨_, _, _, code2, hcode2, hlen⟩ :=
      (flagRule_iff_mem_classify cfg c a).2 (explorer_mem_processBlock hmem)
    rw [hcode] at hcode2
    cases hcode2
    omega

/-- Witness of C16: the contract of `heldChain` meets the rule and is flagged;
with the threshold equal to the length of its code it is not. -/
theorem exact_flagging_rule_witness :
    FlagRule sampleConfig heldChain sampleAddress ∧
      Event.printExplorer sampleAddress ∈ (processBlock sampleConfig heldChain 100).trace ∧
      Event.printExplorer sampleAddress ∉
        (processBlock (Config.mk 50000 10 false true) heldChain 100).trace :=
  have hr : FlagRule sampleConfig heldChain sampleAddress :=
    ⟨rfl, by decide, by decide, List.replicate 50000 '6', rfl, by
      rw [List.length_replicate]; decide⟩
  ⟨hr,
    ((exact_flagging_rule sampleConfig heldChain sampleAddress).2.2.2.1 100 [] sampleTx []
      sampleHash (sampleTx_resolves _ _ _)).2 hr,
    (exact_flagging_rule (Config.mk 50000 10 false true) heldChain sampleAddress).2.2.2.2
      (List.replicate 50000 '6') rfl (by rw [List.length_replicate]; rfl) 100⟩

/-- C17: for every `owner()` reply of length in (2, 42], whatever its content,
`extractAddressFromResponse` returns the empty string and the probe returns
`renounced = false` without error; for a reply shorter than 66 the probe
reports renounced exactly when the length is in (42, 66) and characters [2,42)
are all zero. -/
theorem short_reply_never_renounced (c : Client) (a response : GoString)
    (hr : c.ethCall a ownerFunctionSelector "latest".toList = Except.ok response) :
    (2 < response.length → response.length ≤ 42 →
        extractAddressFromResponse response = [] ∧
          checkOwnershipRenunciation c a = Except.ok false) ∧
      (response.length < 66 →
        (checkOwnershipRenunciation c a = Except.ok true ↔
          42 < response.length ∧ slice response 2 42 = List.replicate 40 '0')) := by
  have hz : zeroAddress = List.replicate 40 '0' := by decide
  have hne : ([] : GoString) ≠ zeroAddress := by decide
  constructor
  · intro h2 h42
    have he : extractAddressFromResponse response = [] := by
      unfold extractAddressFromResponse
      rw [if_neg (by omega)]
    refine ⟨he, ?_⟩
    rw [checkOwnershipRenunciation_of_reply hr h2]
    have : extractedOwner response = [] := by
      unfold extractedOwner
      rw [if_neg (by omega), he]
    rw [this]
    simp [hne]
  · intro h66
    by_cases h2 : 2 < response.length
    · rw [checkOwnershipRenunciation_of_reply hr h2]
      have hx : extractedOwner response = extractAddressFromResponse response := by
        unfold extractedOwner
        rw [if_neg (by omega)]
      rw [hx]
      unfold extractAddressFromResponse
      by_cases h42 : response.length > 42
      · rw [if_pos h42, ← hz]
        simp [h42]
      · rw [if_neg h42]
        simp [hne]
        intro h
        exact absurd h h42
    · have : checkOwnershipRenunciation c a =
          Except.error "unexpected response format or empty owner address".toList := by
        unfold checkOwnershipRenunciation
        rw [hr]
        exact ownerVerdict_short (by omega)
      rw [this]
      constructor
      · intro h
        cases h
      · rintro ⟨h, _⟩
        omega

/-- Witness of C17: the 42-byte reply `bareZeroReply`. -/
theorem short_reply_never_renounced_witness :
    2 < bareZeroReply.length ∧ bareZeroReply.length ≤ 42 ∧
      extractAddressFromResponse bareZeroReply = [] ∧
      checkOwnershipRenunciation (sampleClient (Except.ok bareZeroReply) (Except.ok []))
        sampleAddress = Except.ok false :=
  have h := (short_reply_never_renounced (sampleClient (Except.ok bareZeroReply) (Except.ok []))
    sampleAddress bareZeroReply rfl).1 (by decide) (by decide)
  ⟨by decide, by decide, h.1, h.2⟩

/-- C18: `addHexPrefix` is an idempotent normaliser. Its result starts with
`0x`; applying it twice is applying it once; it returns `s` when `s` starts
with `0x` and `0x` followed by `s` otherwise, also when `s` starts with the
upper-case `0X`. -/
theorem addHexPrefix_idempotent_normaliser (s : GoString) :
    "0x".toList <+: addHexPrefix s ∧
      addHexPrefix (addHexPrefix s) = addHexPrefix s ∧
      ("0x".toList <+: s → addHexPrefix s = s) ∧
      (¬ "0x".toList <+: s → addHexPrefix s = "0x".toList ++ s) ∧
      addHexPrefix ("0X".toList ++ s) = "0x0X".toList ++ s := by
  have hpos : ∀ u : GoString, "0x".toList <+: u → addHexPrefix u = u := by
    intro u hu
    unfold addHexPrefix
    rw [if_pos ((addHexPrefix_iff u).2 hu)]
  have hneg : ∀ u : GoString, ¬ "0x".toList <+: u → addHexPrefix u = "0x".toList ++ u := by
    intro u hu
    unfold addHexPrefix
    rw [if_neg (fun h => hu ((addHexPrefix_iff u).1 h))]
  have hstart : "0x".toList <+: addHexPrefix s := by
    by_cases h : "0x".toList <+: s
    · rw [hpos s h]
      exact h
    · rw [hneg s h]
      exact List.prefix_append _ _
  refine ⟨hstart, hpos _ hstart, hpos s, hneg s, ?_⟩
  rw [hneg]
  · rfl
  · rintro ⟨t, ht⟩
    have h1 := congrArg (fun l : GoString => l[1]?) ht
    simp at h1

/-- Witness of C18: the prefixed string `0x64` is returned unchanged and the
bare string `64` gets the prefix. -/
theorem addHexPrefix_idempotent_normaliser_witness :
    "0x".toList <+: "0x64".toList ∧ addHexPrefix "0x64".toList = "0x64".toList ∧
      ¬ "0x".toList <+: "64".toList ∧ addHexPrefix "64".toList = "0x64".toList :=
  ⟨by decide, (addHexPrefix_idempotent_normaliser "0x64".toList).2.2.1 (by decide),
    by decide, (addHexPrefix_idempotent_normaliser "64".toList).2.2.2.1 (by decide)⟩

/-- C19: the table entry `tx.gasprice` is dead. No subject makes
`isContractSuspicious` report it, because every subject that contains it also
contains `gasprice`, which stands earlier in the table (positions 27 and 29);
and it is the only such entry: every other pattern of the table is the one
reported for the subject equal to that pattern. -/
theorem tx_gasprice_never_reported :
    (∀ (s p : GoString), (isContractSuspicious s).2 = [Event.printMotif p] →
        p ≠ "tx.gasprice".toList) ∧
      (∀ s : GoString, "tx.gasprice".toList <:+: s → "gasprice".toList <:+: s) ∧
      suspiciousPatterns[27]? = some "gasprice".toList ∧
      suspiciousPatterns[29]? = some "tx.gasprice".toList ∧
      (∀ p ∈ suspiciousPatterns, p ≠ "tx.gasprice".toList →
        isContractSuspicious p = (true, [Event.printMotif p])) := by
  have hsub : ∀ s : GoString, "tx.gasprice".toList <:+: s → "gasprice".toList <:+: s := by
    intro s hs
    exact List.IsInfix.trans (by decide) hs
  refine ⟨?_, hsub, by decide, by decide, ?_⟩
  · intro s p hrep hp
    subst hp
    obtain ⟨i, hi, hin, hmin⟩ := scanPatterns_reported s suspiciousPatterns _ hrep
    have hlt : i < suspiciousPatterns.length := by
      by_contra hge
      rw [List.getElem?_eq_none (by omega)] at hi
      cases hi
    have h29 : ∀ k, k < suspiciousPatterns.length →
        suspiciousPatterns[k]? = some "tx.gasprice".toList → k = 29 := by
      set_option maxRecDepth 8000 in decide
    have hi29 := h29 i hlt hi
    subst hi29
    exact hmin 27 "gasprice".toList (by decide) (by decide) (hsub s hin)
  · set_option maxRecDepth 100000 in decide

/-- Witness of C19: the subject `tx.gasprice` reports `gasprice`, and the
subject `.send(` reports itself although the earlier entry
`msg.sender.send(` contains it. -/
theorem tx_gasprice_never_reported_witness :
    isContractSuspicious "tx.gasprice".toList = (true, [Event.printMotif "gasprice".toList]) ∧
      isContractSuspicious ".send(".toList = (true, [Event.printMotif ".send(".toList]) :=
  ⟨by set_option maxRecDepth 8000 in decide,
    tx_gasprice_never_reported.2.2.2.2 ".send(".toList (by decide) (by decide)⟩

/-- C15: for every block number `n` with `0 ≤ n < 2 ^ 63` the height that
`processBlock` sends with the block request is `0x` followed by the lower-case
base-16 digits of `n` (most significant first, the single digit `0` for zero),
and decoding that string as `getCurrentBlockNumber` decodes a height
(`ParseInt` with base 0 and 64 bits) succeeds and returns `n`. -/
theorem block_height_roundtrip (n : Int) (h0 : 0 ≤ n) (h63 : n < 2 ^ 63) :
    addHexPrefix (formatInt n 16) = "0x".toList ++ Nat.toDigits 16 n.toNat ∧
      (∀ ch ∈ Nat.toDigits 16 n.toNat, ch ∈ lowerHexDigits) ∧
      Nat.toDigits 16 n.toNat =
        (if n.toNat = 0 then ['0']
          else (Nat.digits 16 n.toNat).reverse.map Nat.digitChar) ∧
      (∀ cfg c, (processBlock cfg c n).trace.head? =
        some (Event.rpcGetBlock ("0x".toList ++ Nat.toDigits 16 n.toNat))) ∧
      parseInt (addHexPrefix (formatInt n 16)) 0 64 = (n, none) ∧
      getCurrentBlockNumber (Except.ok (addHexPrefix (formatInt n 16))) = Except.ok n := by
  have hfmt : formatInt n 16 = Nat.toDigits 16 n.toNat := by
    unfold formatInt
    rw [if_neg (by omega)]
  have hadd : addHexPrefix (formatInt n 16) = "0x".toList ++ Nat.toDigits 16 n.toNat := by
    rw [hfmt]
    unfold addHexPrefix
    rw [if_neg (fun h => toDigits_not_prefixed _ ((addHexPrefix_iff _).1 h))]
  have hnat : n.toNat < 2 ^ 63 := by omega
  have hparse : parseInt (addHexPrefix (formatInt n 16)) 0 64 = (n, none) := by
    rw [hadd]
    have hu := parseUint_hex (Nat.toDigits 16 n.toNat) n.toNat (toDigits_length_pos _)
      (parseUintLoop_toDigits _ (by omega))
    have hcons : "0x".toList ++ Nat.toDigits 16 n.toNat =
        '0' :: 'x' :: Nat.toDigits 16 n.toNat := rfl
    have hcast : ((n.toNat : Nat) : Int) = n := Int.toNat_of_nonneg h0
    have hlit : ¬ (9223372036854775808 ≤ n.toNat) := by omega
    rw [hcons]
    unfold parseInt
    rw [if_neg (List.cons_ne_nil _ _)]
    simp [hu, hcast, hlit]
  refine ⟨hadd, ?_, ?_, ?_, hparse, ?_⟩
  · intro ch hch
    unfold Nat.toDigits at hch
    rcases toDigitsCore_mem _ _ _ _ hch with h | h
    · simp at h
    · exact h
  · by_cases hz : n.toNat = 0
    · rw [if_pos hz, hz]
      rfl
    · rw [if_neg hz]
      unfold Nat.toDigits
      rw [toDigitsCore_eq_digits _ _ _ (by omega) (Nat.pos_of_ne_zero hz)]
      simp
  · intro cfg c
    unfold processBlock
    simp only [hadd]
    split
    · rfl
    · split <;> rfl
  · unfold getCurrentBlockNumber
    simp only [hparse]

/-- Witness of C15: block 100 is requested as `0x64`, which decodes to 100. -/
theorem block_height_roundtrip_witness :
    (0 : Int) ≤ 100 ∧ (100 : Int) < 2 ^ 63 ∧
      addHexPrefix (formatInt 100 16) = "0x64".toList ∧
      parseInt "0x64".toList 0 64 = (100, none) :=
  have h := block_height_roundtrip 100 (by decide) (by decide)
  ⟨by decide, by decide, h.1.trans (by decide),
    (by decide : addHexPrefix (formatInt 100 16) = "0x64".toList) ▸ h.2.2.2.2.1⟩

end BscScan
